import Mathlib

/-!
# Verification of tidy-html5 `src/messageobj.c`

A shallow embedding, in Lean 4, of the format-string argument scanner
(`BuildArgArray`), the message-record assembler (`tidyMessageCreateInitV`)
and the argument accessor API (`getArgType`, `getArgValueString`,
`getArgValueUInt`, `getArgValueInt`, `getArgValueDouble`) of
`src/messageobj.c`, together with theorems settling the specification's
claims about them.

Modelling conventions:

* A C string is a `List Char` of its non-NUL characters; the terminating
  NUL lives one past the end.  The scanner's loops walk a *buffer*
  `fmt ++ [NUL]`; reading when the buffer suffix is exhausted models a
  read past the allocation, which C leaves undefined, and is made an
  explicit `oob` outcome so that the embedding is total.
* The source is compiled without `WIN32`, so the `case 'S':` arm of the
  conversion switch falls through to the `unknown` arm, and
  `tidyFormatType_WSTRING` is never produced by classification.
* Machine integers are `Int`/`Nat` with explicit wrapping (`% 2^w`) where
  a C cast can change the value; platform-dependent `sizeof` comparisons
  are parameters of a `Platform` record (sizes in bytes).
* `va_list` is an explicitly ordered list of tagged values (`UArg`);
  `va_arg` at a type different from the one supplied, or past the end of
  the supplied arguments, is undefined in C and is an explicit `ub`
  outcome here.
* Allocation through the document allocator is modelled as always
  succeeding (the claims under scrutiny do not concern allocation
  failure); releasing the partially built array is modelled by the
  failing outcome carrying no array.
-/

/-- Sizes (in bytes) of the platform-dependent C types that
`messageobj.c` compares with `sizeof`.  `sizeofInt` is `sizeof(int)`
(= `sizeof(unsigned int)`), `sizeofSizeT` is `sizeof(size_t)`,
`sizeofVoidPtr` is `sizeof(void *)`. -/
structure Platform where
  sizeofInt : Nat
  sizeofSizeT : Nat
  sizeofVoidPtr : Nat
deriving DecidableEq, Repr

/-- The usual 64-bit data model: 32-bit `int`, 64-bit `size_t` and
pointers. -/
def lp64 : Platform := ⟨4, 8, 8⟩

/-- The NUL terminator byte. -/
def NUL : Char := Char.ofNat 0

/-- `FORMAT_LENGTH` from `messageobj.c`: capacity of the per-argument
`format` buffer; a specifier whose text reaches this length is a hard
failure. -/
def FORMAT_LENGTH : Nat := 21

/-- `TidyFormatParameterType` (from `tidyenum.h`, used by
`messageobj.c`).  Constructor names drop the `tidyFormatType_` prefix.
`WSTRING` is produced only under `WIN32`. -/
inductive Ty where
  | UNKNOWN
  | INTN | INT16 | INT32 | INT64
  | UINTN | UINT16 | UINT32 | UINT64
  | STRING | WSTRING | INTSTR | DOUBLE
deriving DecidableEq, Repr

/-- The anonymous union inside `struct printfArg`: exactly one member is
live, matching the member the C code last wrote.  `uninit` models the
union before the third pass has filled it.  A C `double` is kept opaque
(its bit pattern), since no claim computes with doubles. -/
inductive ArgUnion where
  | uninit
  | i (v : Int)          -- `int i`
  | ui (v : Nat)         -- `uint ui`
  | i32 (v : Int)        -- `int32_t i32`
  | ui32 (v : Nat)       -- `uint32_t ui32`
  | ll (v : Int)         -- `int64_t ll`
  | ull (v : Nat)        -- `uint64_t ull`
  | d (bits : Nat)       -- `double d` (opaque)
  | s (str : List Char)  -- `const char *s`
  | ip (p : Nat)         -- `size_t *ip` (opaque pointer)
deriving DecidableEq, Repr

/-- `struct printfArg` from `messageobj.c`. -/
structure PrintfArg where
  type : Ty
  formatStart : Nat
  formatLength : Nat
  format : List Char
  u : ArgUnion
deriving DecidableEq, Repr

/-- One caller-supplied variadic argument, tagged with the C type at
which `va_arg` must read it. -/
inductive UArg where
  | int (v : Int)
  | uint (v : Nat)
  | int32 (v : Int)
  | uint32 (v : Nat)
  | int64 (v : Int)
  | uint64 (v : Nat)
  | str (s : List Char)
  | sizeptr (p : Nat)
  | dbl (bits : Nat)
deriving DecidableEq, Repr

/-! ## First pass: count the valid `%` specifiers

```c
p = fmt; *rv = 0;
while( ( c = *p++ ) != 0 ) {
    if( c != '%' ) continue;
    if( ( c = *p++ ) == '%' ) continue; else number++;
}
```
The loop reads one byte at a time; reading when the buffer is exhausted
(one past the NUL) is the `oob` outcome, carrying the count accumulated
so far. -/

inductive CountResult where
  | ok (n : Nat)
  | oob (n : Nat)
deriving DecidableEq, Repr

/-- Whether the first pass terminated normally (hit the NUL at the top
of the loop). -/
def CountResult.isOk : CountResult → Bool
  | .ok _ => true
  | .oob _ => false

/-- The first (counting) pass of `BuildArgArray`, over the buffer
`fmt ++ [NUL]`. -/
def countLoop : List Char → Nat → CountResult
  | [], n => .oob n
  | c :: rest, n =>
    if c = NUL then .ok n
    else if c = '%' then
      match rest with
      | [] => .oob n
      | c2 :: rest2 => if c2 = '%' then countLoop rest2 n else countLoop rest2 (n + 1)
    else countLoop rest n

example : countLoop (['%', 'd', ' ', '%', '%'] ++ [NUL]) 0 = .ok 1 := by decide
example : countLoop (['%'] ++ [NUL]) 0 = .oob 1 := by decide

/-! ## Second pass: classify each specifier

The classifying loop of `BuildArgArray` re-scans the format.  Inside one
specifier the C code keeps the pair (current character `c`, read
pointer `p`); the embedding keeps (current character, remaining buffer,
index of the first character of the remaining buffer within `fmt`). -/

/-- `while ((c >= '0') && (c <= '9')) { c = *p++; }` — skip a run of
digits.  `none` models the (unreachable from the loop: a digit is never
the last byte of the buffer, whose last byte is the NUL) read past the
allocation. -/
def skipDigits (c : Char) (buf : List Char) (i : Nat) :
    Option (Char × List Char × Nat) :=
  if c.isDigit then
    match buf with
    | [] => none
    | c' :: rest => skipDigits c' rest (i + 1)
  else some (c, buf, i)

/-- Outcome of one step of specifier scanning: the star / unsupported
failure (`*rv = -1; break;`), a read past the allocation, or the next
state. -/
inductive ScanStep where
  | fail
  | oob
  | ok (c : Char) (buf : List Char) (i : Nat)
deriving DecidableEq, Repr

/-- The precision block of the classify pass:
```c
if (c == '.') {
    c = *p++;
    if (c == '*') { *rv = -1; break; }
    while ((c >= '0') && (c <= '9')) { c = *p++; }
}
``` -/
def precStep (c : Char) (buf : List Char) (i : Nat) : ScanStep :=
  if c = '.' then
    match buf with
    | [] => .oob
    | cp :: rest =>
      if cp = '*' then .fail
      else
        match skipDigits cp rest (i + 1) with
        | none => .oob
        | some (c2, buf2, i2) => .ok c2 buf2 i2
  else .ok c buf i

/-- `sizeof(size_t)`-dependent type selected by the `z` length modifier
(`tidyFormatType_INT32` / `INT64` / `UNKNOWN`). -/
def ztype (P : Platform) : Ty :=
  if P.sizeofSizeT = 4 then .INT32
  else if P.sizeofSizeT = 8 then .INT64
  else .UNKNOWN

/-- `sizeof(void *)`-dependent type selected by the `p` conversion. -/
def ptype (P : Platform) : Ty :=
  if P.sizeofVoidPtr = 4 then .UINT32
  else if P.sizeofVoidPtr = 8 then .UINT64
  else if P.sizeofVoidPtr = P.sizeofInt then .UINTN
  else .UNKNOWN

/-- The size (length-modifier) block of the classify pass: starts from
`tidyFormatType_INTN` and handles `h`, `L`, `l` (and `ll`), `z`, each
consuming its characters and leaving `c` at the conversion character.
`none` models a read past the allocation (unreachable from the loop). -/
def lenModStep (P : Platform) (c : Char) (buf : List Char) (i : Nat) :
    Option (Ty × Char × List Char × Nat) :=
  if c = 'h' then
    match buf with
    | [] => none
    | c' :: rest => some (.INT16, c', rest, i + 1)
  else if c = 'L' then
    match buf with
    | [] => none
    | c' :: rest => some (.INT64, c', rest, i + 1)
  else if c = 'l' then
    match buf with
    | [] => none
    | c' :: rest =>
      if c' = 'l' then
        match rest with
        | [] => none
        | c'' :: rest2 => some (.INT64, c'', rest2, i + 2)
      else some (.INT32, c', rest, i + 1)
  else if c = 'z' then
    match buf with
    | [] => none
    | c' :: rest => some (ztype P, c', rest, i + 1)
  else some (.INTN, c, buf, i)

/-- The conversion-character switch of the classify pass (compiled
without `WIN32`, so `'S'` falls through to the `unknown` arm together
with `'C'`, `'E'`, `'G'`). -/
def convType (P : Platform) (t : Ty) (c : Char) : Ty :=
  if c = 'd' ∨ c = 'c' ∨ c = 'i' ∨ c = 'o' ∨ c = 'u' ∨ c = 'x' ∨ c = 'X' then t
  else if c = 'e' ∨ c = 'f' ∨ c = 'g' then .DOUBLE
  else if c = 'p' then ptype P
  else if c = 'S' ∨ c = 'C' ∨ c = 'E' ∨ c = 'G' then .UNKNOWN
  else if c = 's' then .STRING
  else if c = 'n' then .INTSTR
  else .UNKNOWN

/-- Result of scanning one specifier body: star failure, read past the
allocation, or the classified type together with the remaining buffer
and its index (one past the conversion character, like `p` in C). -/
inductive SpecScanR where
  | fail
  | oob
  | done (ty : Ty) (buf : List Char) (i : Nat)
deriving DecidableEq, Repr

/-- Scan one specifier body.  On entry `c` is the character after the
`%` (already known not to be a second `%`), `buf` the rest of the
buffer, `i` the index of `buf`'s head in `fmt`. -/
def scanSpec (P : Platform) (c : Char) (buf : List Char) (i : Nat) : SpecScanR :=
  if c = '*' then .fail
  else
    match skipDigits c buf i with
    | none => .oob
    | some (c1, buf1, i1) =>
      match precStep c1 buf1 i1 with
      | .fail => .fail
      | .oob => .oob
      | .ok c2 buf2 i2 =>
        match lenModStep P c2 buf2 i2 with
        | none => .oob
        | some (ty, c3, buf3, i3) => .done (convType P ty c3) buf3 i3

theorem skipDigits_length_le :
    ∀ (buf : List Char) (c : Char) (i : Nat) (res : Char × List Char × Nat),
      skipDigits c buf i = some res → res.2.1.length ≤ buf.length := by
  intro buf
  induction buf with
  | nil =>
    intro c i res h
    unfold skipDigits at h
    by_cases hd : c.isDigit
    · simp [hd] at h
    · simp only [hd, if_false] at h
      obtain rfl : (c, ([] : List Char), i) = res := by simpa using h
      simp
  | cons b rest ih =>
    intro c i res h
    unfold skipDigits at h
    by_cases hd : c.isDigit
    · simp only [hd, if_true] at h
      exact le_trans (ih b (i + 1) res h) (by simp)
    · simp only [hd, if_false] at h
      obtain rfl : (c, b :: rest, i) = res := by simpa using h
      simp

theorem precStep_length_le (c : Char) (buf : List Char) (i : Nat)
    (c' : Char) (out : List Char) (i' : Nat)
    (h : precStep c buf i = .ok c' out i') : out.length ≤ buf.length := by
  unfold precStep at h
  by_cases hdot : c = '.'
  · simp only [hdot, if_true] at h
    cases buf with
    | nil => simp at h
    | cons cp rest =>
      simp only at h
      by_cases hstar : cp = '*'
      · simp [hstar] at h
      · simp only [hstar, if_false] at h
        cases hsd : skipDigits cp rest (i + 1) with
        | none => rw [hsd] at h; simp at h
        | some trip =>
          obtain ⟨c2, buf2, i2⟩ := trip
          rw [hsd] at h
          simp only [ScanStep.ok.injEq] at h
          obtain ⟨h1, h2, h3⟩ := h
          rw [← h2]
          exact le_trans (skipDigits_length_le rest cp (i + 1) (c2, buf2, i2) hsd)
            (by simp)
  · simp only [hdot, if_false, ScanStep.ok.injEq] at h
    obtain ⟨h1, h2, h3⟩ := h
    subst h2
    exact le_refl _

theorem lenModStep_length_le (P : Platform) (c : Char) (buf : List Char) (i : Nat)
    (t : Ty) (c' : Char) (out : List Char) (i' : Nat)
    (h : lenModStep P c buf i = some (t, c', out, i')) : out.length ≤ buf.length := by
  unfold lenModStep at h
  by_cases h1 : c = 'h'
  · simp only [h1, if_true] at h
    cases buf with
    | nil => simp at h
    | cons b rest =>
      simp only [Option.some.injEq, Prod.mk.injEq] at h
      obtain ⟨-, -, h3, -⟩ := h
      subst h3; simp
  · simp only [h1, if_false] at h
    by_cases h2 : c = 'L'
    · simp only [h2, if_true] at h
      cases buf with
      | nil => simp at h
      | cons b rest =>
        simp only [Option.some.injEq, Prod.mk.injEq] at h
        obtain ⟨-, -, h3, -⟩ := h
        subst h3; simp
    · simp only [h2, if_false] at h
      by_cases h3 : c = 'l'
      · simp only [h3, if_true] at h
        cases buf with
        | nil => simp at h
        | cons b rest =>
          simp only at h
          by_cases h4 : b = 'l'
          · simp only [h4, if_true] at h
            cases rest with
            | nil => simp at h
            | cons b2 rest2 =>
              simp only [Option.some.injEq, Prod.mk.injEq] at h
              obtain ⟨-, -, h5, -⟩ := h
              subst h5; simp; omega
          · simp only [h4, if_false, Option.some.injEq, Prod.mk.injEq] at h
            obtain ⟨-, -, h5, -⟩ := h
            subst h5; simp
      · simp only [h3, if_false] at h
        by_cases h4 : c = 'z'
        · simp only [h4, if_true] at h
          cases buf with
          | nil => simp at h
          | cons b rest =>
            simp only [Option.some.injEq, Prod.mk.injEq] at h
            obtain ⟨-, -, h5, -⟩ := h
            subst h5; simp
        · simp only [h4, if_false, Option.some.injEq, Prod.mk.injEq] at h
          obtain ⟨-, -, h5, -⟩ := h
          subst h5
          exact le_refl _

theorem scanSpec_length_le (P : Platform) (c : Char) (buf : List Char) (i : Nat)
    (ty : Ty) (out : List Char) (i' : Nat)
    (h : scanSpec P c buf i = .done ty out i') : out.length ≤ buf.length := by
  unfold scanSpec at h
  by_cases hstar : c = '*'
  · simp [hstar] at h
  · simp only [hstar, if_false] at h
    cases hsd : skipDigits c buf i with
    | none => rw [hsd] at h; simp at h
    | some trip1 =>
      obtain ⟨c1, buf1, i1⟩ := trip1
      rw [hsd] at h
      simp only at h
      cases hps : precStep c1 buf1 i1 with
      | fail => rw [hps] at h; simp at h
      | oob => rw [hps] at h; simp at h
      | ok c2 buf2 i2 =>
        rw [hps] at h
        simp only at h
        cases hlm : lenModStep P c2 buf2 i2 with
        | none => rw [hlm] at h; simp at h
        | some quad =>
          obtain ⟨t, c3, buf3, i3⟩ := quad
          rw [hlm] at h
          simp only [SpecScanR.done.injEq] at h
          obtain ⟨-, h2, -⟩ := h
          rw [← h2]
          calc buf3.length ≤ buf2.length := lenModStep_length_le P c2 buf2 i2 t c3 buf3 i3 hlm
            _ ≤ buf1.length := precStep_length_le c1 buf1 i1 c2 buf2 i2 hps
            _ ≤ buf.length := skipDigits_length_le buf c i (c1, buf1, i1) hsd

/-! ## Second pass: the classify loop itself

```c
p = fmt;
while( ( c = *p++ ) != 0 ) {
    if( c != '%' ) continue;
    if( ( c = *p++ ) == '%' ) continue;
    pos = p - fmt - 2;
    ...body...
    nas[cn].formatStart = pos;
    nas[cn].formatLength = (p - fmt) - pos;
    if ( nas[cn].formatLength >= FORMAT_LENGTH ) { *rv = -1; break; }
    else strncpy(nas[cn].format, fmt + nas[cn].formatStart, nas[cn].formatLength);
    if( nas[ cn ].type == tidyFormatType_UNKNOWN ) { *rv = -1; break; }
}
```
On failure the loop breaks with `*rv = -1`; `BuildArgArray` then frees
the partially built array, so the failing outcome carries no
descriptors. -/

inductive ClassifyResult where
  | ok (descs : List PrintfArg)
  | fail
  | oob
deriving DecidableEq, Repr

/-- `strncpy(nas[cn].format, fmt + start, len)`: copy `len` bytes of the
specifier text out of the format (the byte at `fmt.length` is the NUL;
`fmt` itself contains no NUL). -/
def copyFormat (fmt : List Char) (start len : Nat) : List Char :=
  (List.range len).map fun j => fmt.getD (start + j) NUL

/-- The second (classifying) pass of `BuildArgArray` over the buffer
`fmt ++ [NUL]`.  `buf` is the remaining buffer, `i` the index of its
head within `fmt`, `acc` the descriptors classified so far (the C code
writes them into the pre-allocated array in the same order). -/
def classifyLoop (P : Platform) (fmt : List Char) :
    List Char → Nat → List PrintfArg → ClassifyResult
  | [], _, _ => .oob
  | c :: rest, i, acc =>
    if c = NUL then .ok acc
    else if c = '%' then
      match rest with
      | [] => .oob
      | c2 :: rest2 =>
        if c2 = '%' then classifyLoop P fmt rest2 (i + 2) acc
        else
          match h : scanSpec P c2 rest2 (i + 2) with
          | .fail => .fail
          | .oob => .oob
          | .done ty bufE iE =>
            let len := iE - i
            if FORMAT_LENGTH ≤ len then .fail
            else if ty = Ty.UNKNOWN then .fail
            else
              classifyLoop P fmt bufE iE
                (acc ++ [⟨ty, i, len, copyFormat fmt i len, ArgUnion.uninit⟩])
    else classifyLoop P fmt rest (i + 1) acc
termination_by buf _ _ => buf.length
decreasing_by
  · simp only [List.length_cons]; omega
  · have := scanSpec_length_le P c2 rest2 (i + 2) ty bufE iE h
    simp only [List.length_cons]; omega
  · simp only [List.length_cons]; omega

/-! ## Third pass: consume the variadic arguments

```c
cn = 0;
while( cn < number ) {
    if( nas[cn].type == tidyFormatType_UNKNOWN ) { cn++; continue; }
    switch( nas[cn].type ) { ... default: TidyDocFree(doc, nas); *rv = -1; return NULL; }
    cn++;
}
```
Note the pass *skips* `UNKNOWN` entries; the `default:` arm of the
switch is reached only by a type with no `case` (without `WIN32` that is
`WSTRING`). -/

/-- The `va_arg` read performed for one descriptor type, `none` when the
caller supplied an argument of a different C type (undefined behaviour
in C). -/
def vaArgFor : Ty → UArg → Option ArgUnion
  | .INT16, .int v => some (.i v)    -- nas[cn].u.i = va_arg(ap, int)
  | .UINT16, .int v => some (.i v)
  | .INTN, .int v => some (.i v)
  | .UINTN, .uint v => some (.ui v)
  | .INT32, .int32 v => some (.i32 v)
  | .UINT32, .uint32 v => some (.ui32 v)
  | .INT64, .int64 v => some (.ll v)
  | .UINT64, .uint64 v => some (.ull v)
  | .STRING, .str s => some (.s s)
  | .INTSTR, .sizeptr p => some (.ip p)
  | .DOUBLE, .dbl b => some (.d b)
  | _, _ => none

inductive ConsumeResult where
  | ok (descs : List PrintfArg)
  | fatal
  | ub
deriving DecidableEq, Repr

/-- The third (value-consuming) pass of `BuildArgArray`: walks the
descriptors in order, pulling one `va_arg` per non-`UNKNOWN` descriptor.
`fatal` is the `default:` arm (free the array, `*rv = -1`, return
`NULL`); `ub` is a `va_arg` read C leaves undefined. -/
def consumeLoop : List PrintfArg → List UArg → ConsumeResult
  | [], _ => .ok []
  | a :: ds, args =>
    if a.type = Ty.UNKNOWN then
      match consumeLoop ds args with
      | .ok rest => .ok (a :: rest)
      | .fatal => .fatal
      | .ub => .ub
    else if a.type = Ty.WSTRING then .fatal
    else
      match args with
      | [] => .ub
      | v :: vrest =>
        match vaArgFor a.type v with
        | none => .ub
        | some uval =>
          match consumeLoop ds vrest with
          | .ok rest => .ok ({ a with u := uval } :: rest)
          | .fatal => .fatal
          | .ub => .ub

/-! ## `BuildArgArray` -/

/-- Outcome of `BuildArgArray`, as observed through its return value and
`*rv`:
* `nullZero` — returned `NULL` with `*rv = 0` (no specifiers);
* `ok descs n` — returned the filled array with `*rv = n > 0`;
* `fail` — returned `NULL` with `*rv = -1`, the partially built array
  freed;
* `oob` — a format-string read past the allocation (undefined in C);
* `ub` — a `va_arg` read past or at the wrong type (undefined in C). -/
inductive ScanResult where
  | nullZero
  | ok (descs : List PrintfArg) (n : Nat)
  | fail
  | oob
  | ub
deriving DecidableEq, Repr

/-- `BuildArgArray(doc, fmt, ap, rv)` (allocation always succeeds in the
model).  The three passes run over the buffer `fmt ++ [NUL]`. -/
def buildArgArray (P : Platform) (fmt : List Char) (args : List UArg) : ScanResult :=
  match countLoop (fmt ++ [NUL]) 0 with
  | .oob _ => .oob
  | .ok number =>
    if number = 0 then .nullZero
    else
      match classifyLoop P fmt (fmt ++ [NUL]) 0 [] with
      | .oob => .oob
      | .fail => .fail
      | .ok descs =>
        match consumeLoop descs args with
        | .ub => .ub
        | .fatal => .fail
        | .ok filled => .ok filled number

/-! ## Well-formed format strings

To quantify over "every format string with N valid specifiers, none
using an unsupported feature" (spec §4.1/§8), formats are generated from
a list of items: ordinary characters, `%%` escapes, and specifiers built
from fixed-width digits, an optional fixed precision, a length modifier
and a supported conversion character. -/

/-- A length modifier accepted by the classify pass. -/
inductive LenMod where
  | nomod | h | l | ll | bigL | z
deriving DecidableEq, Repr

/-- A conversion character that the classify pass maps to a known
(non-`UNKNOWN`) type on a non-`WIN32` build. -/
inductive ConvChar where
  | d | i | o | u | x | bigX | c | e | f | g | p | s | n
deriving DecidableEq, Repr

def LenMod.chars : LenMod → List Char
  | .nomod => []
  | .h => ['h']
  | .l => ['l']
  | .ll => ['l', 'l']
  | .bigL => ['L']
  | .z => ['z']

def ConvChar.char : ConvChar → Char
  | .d => 'd'
  | .i => 'i'
  | .o => 'o'
  | .u => 'u'
  | .x => 'x'
  | .bigX => 'X'
  | .c => 'c'
  | .e => 'e'
  | .f => 'f'
  | .g => 'g'
  | .p => 'p'
  | .s => 's'
  | .n => 'n'

/-- One conversion specifier with no unsupported feature: optional fixed
width digits, optional fixed precision digits, length modifier,
conversion character. -/
structure SpecItem where
  width : List Char
  prec : Option (List Char)
  lm : LenMod
  conv : ConvChar
deriving DecidableEq, Repr

/-- The characters a fixed precision contributes to the specifier
text. -/
def precRender : Option (List Char) → List Char
  | none => []
  | some ds => '.' :: ds

def SpecItem.precChars (sp : SpecItem) : List Char :=
  precRender sp.prec

/-- The text of a specifier, `%` included (its length is exactly the
`formatLength` the classify pass records). -/
def renderSpec (sp : SpecItem) : List Char :=
  '%' :: (sp.width ++ sp.precChars ++ sp.lm.chars ++ [sp.conv.char])

/-- One piece of a format string. -/
inductive FmtItem where
  | lit (c : Char)
  | escape
  | spec (sp : SpecItem)
deriving DecidableEq, Repr

def renderFmt : List FmtItem → List Char
  | [] => []
  | .lit c :: rest => c :: renderFmt rest
  | .escape :: rest => '%' :: '%' :: renderFmt rest
  | .spec sp :: rest => renderSpec sp ++ renderFmt rest

/-- Well-formedness: literal characters are neither `%` nor NUL, width
and precision are digit runs, and the specifier text stays below
`FORMAT_LENGTH`. -/
def WFItem : FmtItem → Prop
  | .lit c => c ≠ '%' ∧ c ≠ NUL
  | .escape => True
  | .spec sp =>
      (∀ d ∈ sp.width, d.isDigit = true) ∧
      (∀ ds, sp.prec = some ds → ∀ d ∈ ds, d.isDigit = true) ∧
      (renderSpec sp).length < FORMAT_LENGTH

instance : DecidablePred WFItem := by
  intro it
  cases it with
  | lit c => exact inferInstanceAs (Decidable (_ ∧ _))
  | escape => exact inferInstanceAs (Decidable True)
  | spec sp => exact inferInstanceAs (Decidable (_ ∧ _ ∧ _))

/-- The specifiers of an item list, in order. -/
def specsOf : List FmtItem → List SpecItem
  | [] => []
  | .lit _ :: rest => specsOf rest
  | .escape :: rest => specsOf rest
  | .spec sp :: rest => sp :: specsOf rest

/-- The base size the classify pass's length-modifier block selects. -/
def lenBase (P : Platform) : LenMod → Ty
  | .nomod => .INTN
  | .h => .INT16
  | .l => .INT32
  | .ll => .INT64
  | .bigL => .INT64
  | .z => ztype P

/-- The type the classify pass assigns to a specifier: the length
modifier selects a base size, the conversion character maps it. -/
def codeKind (P : Platform) (sp : SpecItem) : Ty :=
  convType P (lenBase P sp.lm) sp.conv.char

/-- The mapping table exactly as the claim states it: `d i o u x X c`
keep the size selected by the length modifier (default native signed
int; `h` 16-bit, `l` 32-bit, `ll` and `L` 64-bit, `z` pointer-sized);
`e f g` give double; `p` gives an unsigned integer sized to the native
pointer width; `s` gives string; `n` gives a write-back integer-count
pointer.  This definition follows the specification's words, to be
compared with `codeKind`, which follows the source. -/
def tableKind (P : Platform) (sp : SpecItem) : Ty :=
  match sp.conv with
  | .d | .i | .o | .u | .x | .bigX | .c =>
    (match sp.lm with
     | .nomod => .INTN
     | .h => .INT16
     | .l => .INT32
     | .ll => .INT64
     | .bigL => .INT64
     | .z => if P.sizeofVoidPtr = 4 then .INT32 else .INT64)
  | .e | .f | .g => .DOUBLE
  | .p => if P.sizeofVoidPtr = 4 then .UINT32 else .UINT64
  | .s => .STRING
  | .n => .INTSTR

/-- On a platform whose pointers are 4 or 8 bytes wide and whose
`size_t` has the pointer width, the classify pass's kind is the
specification's table. -/
theorem codeKind_eq_tableKind (P : Platform)
    (hptr : P.sizeofVoidPtr = 4 ∨ P.sizeofVoidPtr = 8)
    (hzs : P.sizeofSizeT = P.sizeofVoidPtr) (sp : SpecItem) :
    codeKind P sp = tableKind P sp := by
  rcases hptr with h | h <;>
    cases hc : sp.conv <;> cases hl : sp.lm <;>
      simp [codeKind, lenBase, tableKind, convType, ptype, ztype, ConvChar.char, hc, hl, h, hzs]

theorem codeKind_ne_UNKNOWN (P : Platform)
    (hptr : P.sizeofVoidPtr = 4 ∨ P.sizeofVoidPtr = 8)
    (hzs : P.sizeofSizeT = P.sizeofVoidPtr) (sp : SpecItem) :
    codeKind P sp ≠ Ty.UNKNOWN := by
  rw [codeKind_eq_tableKind P hptr hzs]
  rcases hptr with h | h <;>
    cases hc : sp.conv <;> cases hl : sp.lm <;>
      simp [tableKind, hc, hl, h]

theorem ztype_ne_WSTRING (P : Platform) : ztype P ≠ Ty.WSTRING := by
  unfold ztype
  split
  · simp
  · split
    · simp
    · simp

theorem ptype_ne_WSTRING (P : Platform) : ptype P ≠ Ty.WSTRING := by
  unfold ptype
  split
  · simp
  · split
    · simp
    · split
      · simp
      · simp

theorem codeKind_ne_WSTRING (P : Platform) (sp : SpecItem) :
    codeKind P sp ≠ Ty.WSTRING := by
  have hz := ztype_ne_WSTRING P
  have hp := ptype_ne_WSTRING P
  cases hc : sp.conv <;> cases hl : sp.lm <;>
    simp [codeKind, lenBase, convType, ConvChar.char, hc, hl, hz, hp]

/-! ## The scanner on well-formed formats: the counting pass -/

theorem digit_ne_pct (c : Char) (hc : c.isDigit = true) : c ≠ '%' := by
  intro h; rw [h] at hc; exact absurd hc (by decide)

theorem digit_ne_nul (c : Char) (hc : c.isDigit = true) : c ≠ NUL := by
  intro h; rw [h] at hc; exact absurd hc (by decide)

theorem digit_ne_dot (c : Char) (hc : c.isDigit = true) : c ≠ '.' := by
  intro h; rw [h] at hc; exact absurd hc (by decide)

theorem digit_ne_star (c : Char) (hc : c.isDigit = true) : c ≠ '*' := by
  intro h; rw [h] at hc; exact absurd hc (by decide)

/-- The characters after the `%` of a well-formed specifier. -/
def specBody (sp : SpecItem) : List Char :=
  sp.width ++ sp.precChars ++ sp.lm.chars ++ [sp.conv.char]

theorem renderSpec_eq (sp : SpecItem) : renderSpec sp = '%' :: specBody sp := rfl

theorem specBody_ne_nil (sp : SpecItem) : specBody sp ≠ [] := by
  simp [specBody]

theorem convChar_ne_pct (cv : ConvChar) : cv.char ≠ '%' := by
  cases cv <;> decide

theorem convChar_ne_nul (cv : ConvChar) : cv.char ≠ NUL := by
  cases cv <;> decide

theorem specBody_chars (sp : SpecItem)
    (hw : ∀ d ∈ sp.width, d.isDigit = true)
    (hp : ∀ ds, sp.prec = some ds → ∀ d ∈ ds, d.isDigit = true) :
    ∀ c ∈ specBody sp, c ≠ NUL ∧ c ≠ '%' := by
  intro c hc
  simp only [specBody, List.append_assoc, List.mem_append] at hc
  rcases hc with hcw | hcp | hcl | hcv
  · exact ⟨digit_ne_nul c (hw c hcw), digit_ne_pct c (hw c hcw)⟩
  · unfold SpecItem.precChars at hcp
    cases hpr : sp.prec with
    | none => rw [hpr] at hcp; simp [precRender] at hcp
    | some ds =>
      rw [hpr] at hcp
      unfold precRender at hcp
      rcases List.mem_cons.mp hcp with h | h
      · subst h; exact ⟨by decide, by decide⟩
      · exact ⟨digit_ne_nul c (hp ds hpr c h), digit_ne_pct c (hp ds hpr c h)⟩
  · cases hlm : sp.lm <;> rw [hlm] at hcl <;> simp [LenMod.chars] at hcl <;>
      (subst hcl; exact ⟨by decide, by decide⟩)
  · rcases List.mem_singleton.mp hcv with h
    subst h
    exact ⟨convChar_ne_nul sp.conv, convChar_ne_pct sp.conv⟩

theorem countLoop_cons (c : Char) (l : List Char) (n : Nat)
    (h0 : c ≠ NUL) (h1 : c ≠ '%') :
    countLoop (c :: l) n = countLoop l n := by
  cases l with
  | nil => simp [countLoop, h0, h1]
  | cons c2 l2 => simp [countLoop, h0, h1]

theorem countLoop_escape (l : List Char) (n : Nat) :
    countLoop ('%' :: '%' :: l) n = countLoop l n := by
  simp [countLoop, NUL]

theorem countLoop_pct (c2 : Char) (l : List Char) (n : Nat) (h2 : c2 ≠ '%') :
    countLoop ('%' :: c2 :: l) n = countLoop l (n + 1) := by
  simp [countLoop, NUL, h2]

theorem countLoop_nonpct (cs : List Char) (h : ∀ c ∈ cs, c ≠ NUL ∧ c ≠ '%')
    (rest : List Char) (n : Nat) :
    countLoop (cs ++ rest) n = countLoop rest n := by
  induction cs with
  | nil => rfl
  | cons c cs ih =>
    obtain ⟨h0, h1⟩ := h c (by simp)
    rw [List.cons_append, countLoop_cons c _ n h0 h1]
    exact ih (fun x hx => h x (by simp [hx])) 

/-- The counting pass over a rendered well-formed format: each
specifier contributes one to the count, everything else contributes
nothing. -/
theorem countLoop_render (items : List FmtItem) (hwf : ∀ it ∈ items, WFItem it) :
    ∀ (rest : List Char) (n : Nat),
      countLoop (renderFmt items ++ rest) n = countLoop rest (n + (specsOf items).length) := by
  induction items with
  | nil => intro rest n; simp [renderFmt, specsOf]
  | cons it items ih =>
    intro rest n
    have hit : WFItem it := hwf it (by simp)
    have hrest : ∀ x ∈ items, WFItem x := fun x hx => hwf x (by simp [hx])
    cases it with
    | lit c =>
      obtain ⟨h1, h2⟩ := hit
      rw [renderFmt, List.cons_append, countLoop_cons c _ n h2 h1, ih hrest rest n]
      simp [specsOf]
    | escape =>
      rw [renderFmt, List.cons_append, List.cons_append, countLoop_escape, ih hrest rest n]
      simp [specsOf]
    | spec sp =>
      obtain ⟨hw, hp, hlen⟩ := hit
      obtain ⟨b0, btl, hb⟩ := List.exists_cons_of_ne_nil (specBody_ne_nil sp)
      have hbody := specBody_chars sp hw hp
      rw [hb] at hbody
      rw [renderFmt, renderSpec_eq, hb, List.append_assoc]
      rw [List.cons_append, List.cons_append]
      rw [countLoop_pct b0 _ n (hbody b0 (by simp)).2]
      rw [countLoop_nonpct btl (fun x hx => hbody x (by simp [hx])) (renderFmt items ++ rest) (n + 1)]
      rw [ih hrest rest (n + 1)]
      have harith : n + 1 + (specsOf items).length = n + (specsOf (FmtItem.spec sp :: items)).length := by
        simp [specsOf]; omega
      rw [harith]

/-- The counting pass never decreases its accumulator. -/
theorem countLoop_ok_ge (buf : List Char) (n m : Nat) (h : countLoop buf n = .ok m) :
    n ≤ m := by
  cases buf with
  | nil => simp [countLoop] at h
  | cons c rest =>
    cases rest with
    | nil =>
      by_cases h0 : c = NUL
      · simp [countLoop, h0] at h; omega
      · by_cases h1 : c = '%'
        · subst h1; simp [countLoop, NUL] at h
        · simp [countLoop, h0, h1] at h
    | cons c2 rest2 =>
      by_cases h0 : c = NUL
      · simp [countLoop, h0] at h; omega
      · by_cases h1 : c = '%'
        · by_cases h2 : c2 = '%'
          · exact countLoop_ok_ge rest2 n m (by simpa [countLoop, h0, h1, h2] using h)
          · have := countLoop_ok_ge rest2 (n + 1) m (by simpa [countLoop, h0, h1, h2] using h)
            omega
        · exact countLoop_ok_ge (c2 :: rest2) n m (by simpa [countLoop, h0, h1] using h)
termination_by buf.length

/-! ## The scanner on well-formed formats: one specifier body -/

theorem convChar_facts (cv : ConvChar) :
    cv.char.isDigit = false ∧ cv.char ≠ '.' ∧ cv.char ≠ '*' ∧
      cv.char ≠ 'h' ∧ cv.char ≠ 'L' ∧ cv.char ≠ 'l' ∧ cv.char ≠ 'z' := by
  cases cv <;> decide

/-- A non-digit in hand: the digit loop does not move. -/
theorem skipDigits_nodigit (c : Char) (hc : c.isDigit = false)
    (buf : List Char) (i : Nat) : skipDigits c buf i = some (c, buf, i) := by
  cases buf <;> simp [skipDigits, hc]

/-- Skipping a run of digits lands on the first non-digit, one position
per digit consumed. -/
theorem skipDigits_run (ds : List Char) (hds : ∀ d ∈ ds, d.isDigit = true)
    (c : Char) (hc : c.isDigit = false) (rest : List Char) :
    ∀ (e : Char) (i : Nat), e.isDigit = true →
      skipDigits e (ds ++ c :: rest) i = some (c, rest, i + ds.length + 1) := by
  induction ds with
  | nil =>
    intro e i he
    simp only [List.nil_append]
    rw [skipDigits]
    simp only [he, if_true]
    simp [skipDigits_nodigit c hc]
  | cons d2 ds2 ih =>
    intro e i he
    have hd2 : d2.isDigit = true := hds d2 (by simp)
    have hds2 : ∀ d ∈ ds2, d.isDigit = true := fun d hd => hds d (by simp [hd])
    rw [List.cons_append]
    rw [skipDigits]
    simp only [he, if_true]
    rw [ih hds2 d2 (i + 1) hd2]
    have harith : i + 1 + ds2.length + 1 = i + (d2 :: ds2).length + 1 := by
      simp [List.length_cons]; omega
    rw [harith]

/-- The precision block on a rendered fixed precision: consumes exactly
its characters and lands on the first character after them. -/
theorem precStep_render (pr : Option (List Char))
    (hp : ∀ ds, pr = some ds → ∀ d ∈ ds, d.isDigit = true)
    (e : Char) (etl : List Char)
    (hed : e.isDigit = false) (hedot : e ≠ '.') (hestar : e ≠ '*')
    (rest : List Char) (k : Nat) :
    ∀ a atl, precRender pr ++ e :: etl = a :: atl →
      precStep a (atl ++ rest) k = .ok e (etl ++ rest) (k + (precRender pr).length) := by
  cases pr with
  | none =>
    intro a atl ha
    simp only [precRender, List.nil_append, List.cons.injEq] at ha
    obtain ⟨ha1, ha2⟩ := ha
    subst ha1; subst ha2
    simp [precStep, hedot, precRender]
  | some ds =>
    intro a atl ha
    simp only [precRender, List.cons_append, List.cons.injEq] at ha
    obtain ⟨ha1, ha2⟩ := ha
    subst ha1; subst ha2
    rw [List.append_assoc, List.cons_append]
    cases ds with
    | nil =>
      simp only [List.nil_append]
      simp [precStep, hestar, skipDigits_nodigit e hed, precRender]
    | cons d0 ds0 =>
      have hd0 : d0.isDigit = true := hp (d0 :: ds0) rfl d0 (by simp)
      have hds0 : ∀ d ∈ ds0, d.isDigit = true := fun d hd => hp _ rfl d (by simp [hd])
      simp only [List.cons_append]
      rw [precStep]
      simp only [if_pos rfl]
      rw [if_neg (digit_ne_star d0 hd0)]
      rw [skipDigits_run ds0 hds0 e hed (etl ++ rest) d0 (k + 1) hd0]
      simp [precRender]
      omega

/-- The length-modifier block on a rendered modifier: consumes exactly
its characters, selects its base size, and leaves the conversion
character in hand. -/
theorem lenModStep_render (P : Platform) (lm : LenMod) (cv : ConvChar)
    (rest : List Char) (k : Nat) :
    ∀ e etl, lm.chars ++ [cv.char] = e :: etl →
      lenModStep P e (etl ++ rest) k =
        some (lenBase P lm, cv.char, rest, k + lm.chars.length) := by
  obtain ⟨hd, hdot, hstar, hh, hL, hl, hz⟩ := convChar_facts cv
  cases lm with
  | nomod =>
    intro e etl he
    simp only [LenMod.chars, List.nil_append, List.cons.injEq] at he
    obtain ⟨he1, he2⟩ := he
    subst he1; subst he2
    simp [lenModStep, lenBase, LenMod.chars, hh, hL, hl, hz]
  | h =>
    intro e etl he
    simp only [LenMod.chars, List.cons_append, List.nil_append, List.cons.injEq] at he
    obtain ⟨he1, he2⟩ := he
    subst he1; subst he2
    simp [lenModStep, lenBase, LenMod.chars]
  | l =>
    intro e etl he
    simp only [LenMod.chars, List.cons_append, List.nil_append, List.cons.injEq] at he
    obtain ⟨he1, he2⟩ := he
    subst he1; subst he2
    simp [lenModStep, lenBase, LenMod.chars, hl]
  | ll =>
    intro e etl he
    simp only [LenMod.chars, List.cons_append, List.nil_append, List.cons.injEq] at he
    obtain ⟨he1, he2⟩ := he
    subst he1; subst he2
    simp [lenModStep, lenBase, LenMod.chars]
  | bigL =>
    intro e etl he
    simp only [LenMod.chars, List.cons_append, List.nil_append, List.cons.injEq] at he
    obtain ⟨he1, he2⟩ := he
    subst he1; subst he2
    simp [lenModStep, lenBase, LenMod.chars]
  | z =>
    intro e etl he
    simp only [LenMod.chars, List.cons_append, List.nil_append, List.cons.injEq] at he
    obtain ⟨he1, he2⟩ := he
    subst he1; subst he2
    simp [lenModStep, lenBase, LenMod.chars]

/-- Scanning one well-formed rendered specifier: the body is consumed
exactly, the classified type is `codeKind`, and the final position is
one past the conversion character. -/
theorem scanSpec_render (P : Platform) (sp : SpecItem)
    (hw : ∀ d ∈ sp.width, d.isDigit = true)
    (hp : ∀ ds, sp.prec = some ds → ∀ d ∈ ds, d.isDigit = true)
    (rest : List Char) (j : Nat) :
    ∀ b0 btl, specBody sp = b0 :: btl →
      scanSpec P b0 (btl ++ rest) j = .done (codeKind P sp) rest (j + btl.length) := by
  intro b0 btl hb
  obtain ⟨hcvd, hcvdot, hcvstar, hcvh, hcvL, hcvl, hcvz⟩ := convChar_facts sp.conv
  -- the modifier-and-conversion block is nonempty
  obtain ⟨e, etl, hB⟩ := List.exists_cons_of_ne_nil
    (show sp.lm.chars ++ [sp.conv.char] ≠ [] by simp)
  have he_facts : e.isDigit = false ∧ e ≠ '.' ∧ e ≠ '*' := by
    cases hlm2 : sp.lm <;> rw [hlm2] at hB <;>
      simp only [LenMod.chars, List.nil_append, List.cons_append, List.cons.injEq] at hB <;>
      obtain ⟨he1, -⟩ := hB <;> subst he1
    · exact ⟨hcvd, hcvdot, hcvstar⟩
    · exact ⟨by decide, by decide, by decide⟩
    · exact ⟨by decide, by decide, by decide⟩
    · exact ⟨by decide, by decide, by decide⟩
    · exact ⟨by decide, by decide, by decide⟩
    · exact ⟨by decide, by decide, by decide⟩
  -- the precision-to-end block is nonempty
  obtain ⟨a0, atl, hA⟩ := List.exists_cons_of_ne_nil
    (show precRender sp.prec ++ e :: etl ≠ [] by simp)
  have ha0_facts : a0.isDigit = false ∧ a0 ≠ '*' := by
    cases hpr : sp.prec with
    | none =>
      rw [hpr] at hA
      simp only [precRender, List.nil_append, List.cons.injEq] at hA
      obtain ⟨ha1, -⟩ := hA
      subst ha1
      exact ⟨he_facts.1, he_facts.2.2⟩
    | some ds =>
      rw [hpr] at hA
      simp only [precRender, List.cons_append, List.cons.injEq] at hA
      obtain ⟨ha1, -⟩ := hA
      subst ha1
      exact ⟨by decide, by decide⟩
  have hbody : specBody sp = sp.width ++ (a0 :: atl) := by
    unfold specBody SpecItem.precChars
    rw [List.append_assoc, List.append_assoc, hB, hA]
  -- the width block
  have hstep : b0 ≠ '*' ∧
      skipDigits b0 (btl ++ rest) j = some (a0, atl ++ rest, j + sp.width.length) := by
    cases hwid : sp.width with
    | nil =>
      rw [hwid, List.nil_append] at hbody
      rw [hbody] at hb
      injection hb with hb1 hb2
      subst hb1; subst hb2
      refine ⟨ha0_facts.2, ?_⟩
      rw [skipDigits_nodigit a0 ha0_facts.1]
      simp [hwid]
    | cons d0 ds0 =>
      have hd0 : d0.isDigit = true := by
        rw [hwid] at hw; exact hw d0 (by simp)
      have hds0 : ∀ d ∈ ds0, d.isDigit = true := by
        rw [hwid] at hw; exact fun d hd => hw d (by simp [hd])
      rw [hwid, List.cons_append] at hbody
      rw [hbody] at hb
      injection hb with hb1 hb2
      subst hb1; subst hb2
      refine ⟨digit_ne_star d0 hd0, ?_⟩
      rw [List.append_assoc, List.cons_append]
      rw [skipDigits_run ds0 hds0 a0 ha0_facts.1 (atl ++ rest) d0 j hd0]
      simp [hwid]
      omega
  have hps := precStep_render sp.prec hp e etl he_facts.1 he_facts.2.1 he_facts.2.2 rest
    (j + sp.width.length) a0 atl hA
  have hlms := lenModStep_render P sp.lm sp.conv rest
    (j + sp.width.length + (precRender sp.prec).length) e etl hB
  have hlen : btl.length = sp.width.length + (precRender sp.prec).length + sp.lm.chars.length := by
    have h1 : (specBody sp).length = (b0 :: btl).length := by rw [hb]
    have h2 : (specBody sp).length =
        sp.width.length + (precRender sp.prec).length + sp.lm.chars.length + 1 := by
      unfold specBody SpecItem.precChars
      simp [List.length_append]
      omega
    rw [h2] at h1
    simp at h1
    omega
  unfold scanSpec
  rw [if_neg hstep.1, hstep.2]
  simp only [hps, hlms]
  unfold codeKind
  rw [hlen]
  have harith : j + sp.width.length + (precRender sp.prec).length + sp.lm.chars.length =
      j + (sp.width.length + (precRender sp.prec).length + sp.lm.chars.length) := by omega
  rw [harith]

/-! ## The scanner on well-formed formats: the classify pass -/

theorem classifyLoop_cons (P : Platform) (fmt : List Char) (c : Char)
    (l : List Char) (i : Nat) (acc : List PrintfArg)
    (h0 : c ≠ NUL) (h1 : c ≠ '%') :
    classifyLoop P fmt (c :: l) i acc = classifyLoop P fmt l (i + 1) acc := by
  conv_lhs => rw [classifyLoop.eq_def]
  simp [NUL, h0, h1]
  intro h
  exact absurd h (by rw [NUL] at h0; exact h0)

theorem classifyLoop_escape (P : Platform) (fmt : List Char)
    (l : List Char) (i : Nat) (acc : List PrintfArg) :
    classifyLoop P fmt ('%' :: '%' :: l) i acc = classifyLoop P fmt l (i + 2) acc := by
  conv_lhs => rw [classifyLoop.eq_def]
  simp [NUL]

theorem classifyLoop_nonpct (P : Platform) (fmt : List Char) (cs : List Char)
    (h : ∀ c ∈ cs, c ≠ NUL ∧ c ≠ '%') :
    ∀ (rest : List Char) (i : Nat) (acc : List PrintfArg),
      classifyLoop P fmt (cs ++ rest) i acc =
        classifyLoop P fmt rest (i + cs.length) acc := by
  induction cs with
  | nil => intro rest i acc; simp
  | cons c cs ih =>
    intro rest i acc
    obtain ⟨h0, h1⟩ := h c (by simp)
    rw [List.cons_append, classifyLoop_cons P fmt c _ i acc h0 h1]
    rw [ih (fun x hx => h x (by simp [hx])) rest (i + 1) acc]
    have harith : i + 1 + cs.length = i + (c :: cs).length := by simp; omega
    rw [harith]

/-- One well-formed specifier through the classify loop: it appends
exactly one descriptor, with `codeKind`'s type and the exact source
span. -/
theorem classifyLoop_spec_item (P : Platform) (fmt : List Char) (sp : SpecItem)
    (hw : ∀ d ∈ sp.width, d.isDigit = true)
    (hp : ∀ ds, sp.prec = some ds → ∀ d ∈ ds, d.isDigit = true)
    (hlen : (renderSpec sp).length < FORMAT_LENGTH)
    (hk : codeKind P sp ≠ Ty.UNKNOWN)
    (rest : List Char) (i : Nat) (acc : List PrintfArg) :
    classifyLoop P fmt (renderSpec sp ++ rest) i acc =
      classifyLoop P fmt rest (i + (renderSpec sp).length)
        (acc ++ [⟨codeKind P sp, i, (renderSpec sp).length,
          copyFormat fmt i (renderSpec sp).length, ArgUnion.uninit⟩]) := by
  obtain ⟨b0, btl, hb⟩ := List.exists_cons_of_ne_nil (specBody_ne_nil sp)
  have hbody := specBody_chars sp hw hp
  rw [hb] at hbody
  have hb0 : b0 ≠ '%' := (hbody b0 (by simp)).2
  have hs := scanSpec_render P sp hw hp rest (i + 2) b0 btl hb
  have hrlen : (renderSpec sp).length = btl.length + 2 := by
    rw [renderSpec_eq, hb]; simp
  rw [renderSpec_eq, hb, List.cons_append, List.cons_append]
  conv_lhs => rw [classifyLoop.eq_def]
  simp [NUL, hb0]
  split
  next h => rw [hs] at h; cases h
  next h => rw [hs] at h; cases h
  next ty2 bufE2 iE2 h =>
    rw [hs] at h
    injection h with h1 h2 h3
    subst h1; subst h2; subst h3
    have hsub : i + 2 + btl.length - i = (renderSpec sp).length := by omega
    rw [hsub]
    rw [if_neg (by omega)]
    rw [if_neg hk]
    have harith : i + 2 + btl.length = i + (renderSpec sp).length := by omega
    rw [harith]
    have h22 : btl.length + 1 + 1 = (renderSpec sp).length := by omega
    rw [h22]

/-- The expected descriptor array for a rendered well-formed format
starting at position `i` of `fmt`: one descriptor per specifier, in
order. -/
def expectedDescs (P : Platform) (fmt : List Char) : Nat → List FmtItem → List PrintfArg
  | _, [] => []
  | i, .lit _ :: rest => expectedDescs P fmt (i + 1) rest
  | i, .escape :: rest => expectedDescs P fmt (i + 2) rest
  | i, .spec sp :: rest =>
      ⟨codeKind P sp, i, (renderSpec sp).length,
        copyFormat fmt i (renderSpec sp).length, ArgUnion.uninit⟩ ::
        expectedDescs P fmt (i + (renderSpec sp).length) rest

theorem expectedDescs_types (P : Platform) (fmt : List Char) :
    ∀ (items : List FmtItem) (i : Nat),
      (expectedDescs P fmt i items).map PrintfArg.type =
        (specsOf items).map (codeKind P) := by
  intro items
  induction items with
  | nil => intro i; simp [expectedDescs, specsOf]
  | cons it rest ih =>
    intro i
    cases it with
    | lit c => simp [expectedDescs, specsOf, ih]
    | escape => simp [expectedDescs, specsOf, ih]
    | spec sp => simp [expectedDescs, specsOf, ih]

/-- The classify pass over a rendered well-formed format accumulates
exactly the expected descriptors. -/
theorem classifyLoop_render (P : Platform) (fmt : List Char) (items : List FmtItem)
    (hwf : ∀ it ∈ items, WFItem it)
    (hk : ∀ sp ∈ specsOf items, codeKind P sp ≠ Ty.UNKNOWN) :
    ∀ (rest : List Char) (i : Nat) (acc : List PrintfArg),
      classifyLoop P fmt (renderFmt items ++ rest) i acc =
        classifyLoop P fmt rest (i + (renderFmt items).length)
          (acc ++ expectedDescs P fmt i items) := by
  induction items with
  | nil => intro rest i acc; simp [renderFmt, expectedDescs]
  | cons it items ih =>
    intro rest i acc
    have hit : WFItem it := hwf it (by simp)
    have hrest : ∀ x ∈ items, WFItem x := fun x hx => hwf x (by simp [hx])
    cases it with
    | lit c =>
      obtain ⟨h1, h2⟩ := hit
      rw [renderFmt, List.cons_append, classifyLoop_cons P fmt c _ i acc h2 h1]
      rw [ih hrest (fun sp hsp => hk sp (by simp [specsOf, hsp])) rest (i + 1) acc]
      simp only [List.length_cons]
      have harith : i + 1 + (renderFmt items).length = i + ((renderFmt items).length + 1) := by
        omega
      rw [harith]
      rfl
    | escape =>
      rw [renderFmt, List.cons_append, List.cons_append, classifyLoop_escape]
      rw [ih hrest (fun sp hsp => hk sp (by simp [specsOf, hsp])) rest (i + 2) acc]
      simp only [List.length_cons]
      have harith : i + 2 + (renderFmt items).length = i + ((renderFmt items).length + 1 + 1) := by
        omega
      rw [harith]
      rfl
    | spec sp =>
      obtain ⟨hw, hp, hlen⟩ := hit
      have hksp : codeKind P sp ≠ Ty.UNKNOWN := hk sp (by simp [specsOf])
      rw [renderFmt, List.append_assoc]
      rw [classifyLoop_spec_item P fmt sp hw hp hlen hksp _ i acc]
      rw [ih hrest (fun sq hsq => hk sq (by simp [specsOf, hsq])) rest
        (i + (renderSpec sp).length) _]
      simp only [List.length_append]
      have harith : i + (renderSpec sp).length + (renderFmt items).length =
          i + ((renderSpec sp).length + (renderFmt items).length) := by
        omega
      rw [harith, List.append_assoc]
      rfl

/-! ## The scanner on well-formed formats: the consume pass -/

/-- The caller-supplied arguments match a list of descriptor types when
each position holds a value of the C type `va_arg` reads there (extra
trailing arguments are allowed, as in C). -/
def argsMatch : List Ty → List UArg → Bool
  | [], _ => true
  | _ :: _, [] => false
  | t :: ts, a :: rest => (vaArgFor t a).isSome && argsMatch ts rest

/-- The consume pass succeeds on descriptors free of `UNKNOWN` and
`WSTRING` whenever the arguments match, filling one value per
descriptor and changing nothing else. -/
theorem consumeLoop_ok (ds : List PrintfArg)
    (hk : ∀ a ∈ ds, a.type ≠ Ty.UNKNOWN ∧ a.type ≠ Ty.WSTRING) :
    ∀ args, argsMatch (ds.map PrintfArg.type) args = true →
      ∃ out, consumeLoop ds args = .ok out ∧
        out.map PrintfArg.type = ds.map PrintfArg.type ∧
        out.length = ds.length := by
  induction ds with
  | nil => intro args _; exact ⟨[], rfl, rfl, rfl⟩
  | cons a ds ih =>
    intro args hm
    obtain ⟨h1, h2⟩ := hk a (by simp)
    cases args with
    | nil => simp [List.map_cons, argsMatch] at hm
    | cons v vrest =>
      simp only [List.map_cons, argsMatch, Bool.and_eq_true, Option.isSome_iff_exists] at hm
      obtain ⟨⟨uval, huval⟩, hm2⟩ := hm
      obtain ⟨out, hout, htypes, hlen⟩ :=
        ih (fun x hx => hk x (by simp [hx])) vrest hm2
      refine ⟨{ a with u := uval } :: out, ?_, ?_, ?_⟩
      · rw [consumeLoop]
        rw [if_neg h1, if_neg h2, huval, hout]
      · simp [htypes]
      · simp [hlen]

/-! ## `BuildArgArray` on well-formed formats -/

theorem countLoop_nul (l : List Char) (n : Nat) :
    countLoop (NUL :: l) n = .ok n := by
  cases l <;> simp [countLoop]

theorem classifyLoop_nul (P : Platform) (fmt : List Char) (l : List Char)
    (i : Nat) (acc : List PrintfArg) :
    classifyLoop P fmt (NUL :: l) i acc = .ok acc := by
  conv_lhs => rw [classifyLoop.eq_def]
  simp

/-- `BuildArgArray` on a rendered well-formed format whose specifiers
all classify to known, consumable kinds: zero specifiers give the
`NULL`-with-zero result, otherwise the filled array is returned with
one descriptor per specifier, in order, typed by `codeKind`. -/
theorem buildArgArray_render (P : Platform) (items : List FmtItem)
    (hwf : ∀ it ∈ items, WFItem it)
    (hk : ∀ sp ∈ specsOf items, codeKind P sp ≠ Ty.UNKNOWN)
    (args : List UArg)
    (hargs : argsMatch ((specsOf items).map (codeKind P)) args = true) :
    (specsOf items = [] ∧ buildArgArray P (renderFmt items) args = .nullZero) ∨
    (specsOf items ≠ [] ∧ ∃ out,
      buildArgArray P (renderFmt items) args = .ok out (specsOf items).length ∧
      out.map PrintfArg.type = (specsOf items).map (codeKind P) ∧
      out.length = (specsOf items).length) := by
  have hcount : countLoop (renderFmt items ++ [NUL]) 0 = .ok (specsOf items).length := by
    rw [countLoop_render items hwf [NUL] 0, countLoop_nul]
    simp
  by_cases hz : specsOf items = []
  · left
    refine ⟨hz, ?_⟩
    unfold buildArgArray
    rw [hcount]
    simp [hz]
  · right
    refine ⟨hz, ?_⟩
    have hE := classifyLoop_render P (renderFmt items) items hwf hk [NUL] 0 []
    rw [classifyLoop_nul] at hE
    simp only [List.nil_append] at hE
    have htypes := expectedDescs_types P (renderFmt items) items 0
    have hmem : ∀ a ∈ expectedDescs P (renderFmt items) 0 items,
        a.type ≠ Ty.UNKNOWN ∧ a.type ≠ Ty.WSTRING := by
      intro a ha
      have : a.type ∈ (expectedDescs P (renderFmt items) 0 items).map PrintfArg.type :=
        List.mem_map_of_mem PrintfArg.type ha
      rw [htypes] at this
      obtain ⟨sp, hsp, heq⟩ := List.mem_map.mp this
      rw [← heq]
      exact ⟨hk sp hsp, codeKind_ne_WSTRING P sp⟩
    have hargs2 : argsMatch ((expectedDescs P (renderFmt items) 0 items).map PrintfArg.type)
        args = true := by rw [htypes]; exact hargs
    obtain ⟨out, hout, houtty, houtlen⟩ :=
      consumeLoop_ok (expectedDescs P (renderFmt items) 0 items) hmem args hargs2
    refine ⟨out, ?_, ?_, ?_⟩
    · unfold buildArgArray
      rw [hcount]
      have hne : ¬ (specsOf items).length = 0 := by simpa using hz
      simp [hne, hE, hout]
    · rw [houtty, htypes]
    · rw [houtlen]
      have : (expectedDescs P (renderFmt items) 0 items).length =
          ((expectedDescs P (renderFmt items) 0 items).map PrintfArg.type).length := by simp
      rw [this, htypes]
      simp

/-! ## Unsupported dynamic width/precision (`*`) and the trailing `%` -/

/-- A specifier body whose precision is given as `*` (optionally after
fixed width digits) makes the specifier scan fail. -/
theorem scanSpec_prec_star (P : Platform) (wd : List Char)
    (hwd : ∀ d ∈ wd, d.isDigit = true) (suffix : List Char) (j : Nat) :
    ∀ e etl, wd ++ '.' :: '*' :: suffix = e :: etl → scanSpec P e etl j = .fail := by
  intro e etl he
  cases wd with
  | nil =>
    simp only [List.nil_append, List.cons.injEq] at he
    obtain ⟨he1, he2⟩ := he
    subst he1; subst he2
    unfold scanSpec
    rw [if_neg (by decide)]
    rw [skipDigits_nodigit '.' (by decide)]
    simp [precStep]
  | cons d0 ds0 =>
    simp only [List.cons_append, List.cons.injEq] at he
    obtain ⟨he1, he2⟩ := he
    subst he1; subst he2
    have hd0 : d0.isDigit = true := hwd d0 (by simp)
    have hds0 : ∀ d ∈ ds0, d.isDigit = true := fun d hd => hwd d (by simp [hd])
    unfold scanSpec
    rw [if_neg (digit_ne_star d0 hd0)]
    rw [skipDigits_run ds0 hds0 '.' (by decide) ('*' :: suffix) d0 j hd0]
    simp [precStep]

/-- A `%` whose specifier body fails to scan makes the classify pass
fail. -/
theorem classifyLoop_specfail (P : Platform) (fmt : List Char) (c2 : Char)
    (rest2 : List Char) (i : Nat) (acc : List PrintfArg) (h2 : c2 ≠ '%')
    (hs : scanSpec P c2 rest2 (i + 2) = .fail) :
    classifyLoop P fmt ('%' :: c2 :: rest2) i acc = .fail := by
  conv_lhs => rw [classifyLoop.eq_def]
  simp [NUL, h2]
  split
  next => rfl
  next h => rw [hs] at h; cases h
  next ty2 bufE2 iE2 h => rw [hs] at h; cases h

/-- `BuildArgArray` fails outright whenever the first pass counted at
least one specifier and the classify pass fails. -/
theorem buildArgArray_classifyfail (P : Platform) (fmt : List Char)
    (args : List UArg) (n : Nat) (hc : countLoop (fmt ++ [NUL]) 0 = .ok n)
    (hn : n ≠ 0) (hcl : classifyLoop P fmt (fmt ++ [NUL]) 0 [] = .fail) :
    buildArgArray P fmt args = .fail := by
  unfold buildArgArray
  rw [hc]
  simp [hn, hcl]

/-! ## The message record and its assembler

`tidyMessageCreateInitV` builds a `TidyMessageImpl` from the document,
code, position, severity and variadic arguments: it runs the scanner on
the default-locale format, renders the six derived strings, selects a
composition pattern, and dispatches the registered callbacks.

External collaborators (localization via `tidyDefaultString` /
`tidyLocalizedString` / `tidyErrorCodeAsKey`, and `tmbvsnprintf` /
`tmbsnprintf` from `tmbstr.c`) are not part of `messageobj.c`; they are
passed in as explicit functions.  The final composition through the
three literal patterns `"%s%s%s"`, `"%.0s%s%s"`, `"%.0s%.0s%s"` is
modelled concretely by standard C `snprintf` semantics: `%s` prints the
argument, `%.0s` consumes it printing nothing, and at most
`sizeMessageBuf - 1` characters are written. -/

/-- The fixed rendering buffer size (`enum { sizeMessageBuf=2048 }`). -/
def sizeMessageBuf : Nat := 2048

/-- `snprintf` truncation: at most `sizeMessageBuf - 1` characters fit
in the buffer (the last byte is the NUL). -/
def sn (l : List Char) : List Char := l.take (sizeMessageBuf - 1)

/-- Severity levels are the integers of the `TidyReportLevel` enum.
Modelled from the spec: the severity scale is linearly ordered,
diagnostic severities are at most `TidyFatal` and dialogue-class
severities lie strictly above it (`tidyenum.h` is not under `src/`; the
exact numeral is immaterial, only comparisons with `TidyFatal` occur in
`messageobj.c`). -/
def TidyFatal : Nat := 356

/-- Modelled from the spec: the numeric code of the localized
line/column template (`LINE_COLUMN_STRING`); only its role as a lookup
key matters. -/
def LINE_COLUMN_STRING : Nat := 500

/-- `TidyMessageImpl`: every field the constructor populates (the
back-references to the document and node are omitted — no claim
inspects them). -/
structure TidyMessage where
  code : Nat
  line : Int
  column : Int
  level : Nat
  arguments : List PrintfArg
  argcount : Int
  messageKey : List Char
  messageFormatDefault : List Char
  messageFormat : List Char
  messageDefault : List Char
  message : List Char
  messagePosDefault : List Char
  messagePos : List Char
  messagePrefixDefault : List Char
  messagePrefix : List Char
  messageOutputDefault : List Char
  messageOutput : List Char
  allowMessage : Bool
deriving DecidableEq, Repr

/-- The parts of `TidyDocImpl` the assembler reads: the three optional
observer callbacks and the two configuration values `TidyEmacs` /
`TidyEmacsFile`. -/
structure TidyDocState where
  reportFilter : Option (Nat → Int → Int → List Char → Bool)
  reportCallback : Option (Nat → Int → Int → List Char → List UArg → Bool)
  messageCallback : Option (TidyMessage → Bool)
  emacs : Bool
  emacsFile : Option (List Char)

/-- The external collaborators of `tidyMessageCreateInitV`:
localization lookups keyed by numeric code (severity prefixes use the
same table keyed by the level), the stable string key per code, the
general bounded `printf` renderer `tmbvsnprintf`, and the bounded
rendering of the localized line/column template with two integers. -/
structure Collab where
  defaultString : Nat → List Char
  localizedString : Nat → List Char
  errorCodeAsKey : Nat → List Char
  render : List Char → List UArg → List Char
  renderLineCol : List Char → Int → Int → List Char

/-- The three composition patterns of `tidyMessageCreateInitV`. -/
inductive OutputPattern where
  | full          -- "%s%s%s"
  | noPos         -- "%.0s%s%s"
  | noPosNoPrefix -- "%.0s%.0s%s"
deriving DecidableEq, Repr

/-- `tmbsnprintf(out, sizeMessageBuf, pattern, pos, prefix, message)` on
the three literal patterns, by C `snprintf` semantics. -/
def formatOutput : OutputPattern → List Char → List Char → List Char → List Char
  | .full, a, b, c => sn (a ++ b ++ c)
  | .noPos, _, b, c => sn (b ++ c)
  | .noPosNoPrefix, _, _, c => sn c

/-- `"%d"` rendering of a C `int`. -/
def intChars (n : Int) : List Char := (toString n).toList

/-- `tmbsnprintf(out, sizeMessageBuf, "%s:%d:%d: ", file, line, column)`
— the GNU Emacs position format. -/
def emacsPos (path : List Char) (line column : Int) : List Char :=
  sn (path ++ ':' :: intChars line ++ ':' :: intChars column ++ [':', ' '])

/-- The body of `tidyMessageCreateInitV` after the scanner has produced
`arguments`/`argcount`: renders the derived strings, composes the two
outputs with the pattern selected from position and severity, and
dispatches the registered callbacks in order, AND-ing their verdicts
into `allowMessage` (the record handed to `messageCallback` carries the
`allowMessage` accumulated so far). -/
def assembleMessage (doc : TidyDocState) (co : Collab) (code : Nat)
    (line column : Int) (level : Nat) (args : List UArg)
    (arguments : List PrintfArg) (argcount : Int) : TidyMessage :=
  let messageKey := co.errorCodeAsKey code
  let messageFormatDefault := co.defaultString code
  let messageFormat := co.localizedString code
  let messageDefault := co.render messageFormatDefault args
  let message := co.render messageFormat args
  let posPair : List Char × List Char :=
    match doc.emacs, doc.emacsFile with
    | true, some path => (emacsPos path line column, emacsPos path line column)
    | _, _ =>
      (co.renderLineCol (co.defaultString LINE_COLUMN_STRING) line column,
       co.renderLineCol (co.localizedString LINE_COLUMN_STRING) line column)
  let messagePrefixDefault := co.defaultString level
  let messagePrefix := co.localizedString level
  let pattern0 := if 0 < line ∧ 0 < column then OutputPattern.full else OutputPattern.noPos
  let pattern := if TidyFatal < level then OutputPattern.noPosNoPrefix else pattern0
  let messageOutputDefault := formatOutput pattern posPair.1 messagePrefixDefault messageDefault
  let messageOutput := formatOutput pattern posPair.2 messagePrefix message
  let allow0 : Bool := true
  let allow1 : Bool :=
    match doc.reportFilter with
    | some f => if level ≤ TidyFatal then allow0 && f level line column messageOutput else allow0
    | none => allow0
  let allow2 : Bool :=
    match doc.reportCallback with
    | some f => if level ≤ TidyFatal then allow1 && f level line column messageKey args else allow1
    | none => allow1
  let m1 : TidyMessage :=
    ⟨code, line, column, level, arguments, argcount, messageKey,
     messageFormatDefault, messageFormat, messageDefault, message,
     posPair.1, posPair.2, messagePrefixDefault, messagePrefix,
     messageOutputDefault, messageOutput, allow2⟩
  let allow3 : Bool :=
    match doc.messageCallback with
    | some f => allow2 && f m1
    | none => allow2
  { m1 with allowMessage := allow3 }

/-- `tidyMessageCreateInitV`: runs `BuildArgArray` on the
*default-locale* format string for `code`, stores the resulting array
and count (`NULL`/`-1` on scanner failure, `NULL`/`0` when there are no
specifiers), then assembles the record.  `none` when the scan runs into
behaviour C leaves undefined. -/
def tidyMessageCreateInitV (P : Platform) (doc : TidyDocState) (co : Collab)
    (code : Nat) (line column : Int) (level : Nat) (args : List UArg) :
    Option TidyMessage :=
  match buildArgArray P (co.defaultString code) args with
  | .oob => none
  | .ub => none
  | .fail => some (assembleMessage doc co code line column level args [] (-1))
  | .nullZero => some (assembleMessage doc co code line column level args [] 0)
  | .ok descs n => some (assembleMessage doc co code line column level args descs (n : Int))

/-! ## Message argument interrogation

Each accessor first executes `assert( argNum <= message.argcount )` and
then reads `message.arguments[argNum]`.  A failed `assert` is the
`assertFail` outcome (a fatal contract violation); an array read outside
the descriptor array, or a union member read at the wrong live member,
is undefined in C and is the `ubRead` outcome. -/

inductive GetterResult (α : Type) where
  | assertFail
  | ubRead
  | ok (v : α)
deriving DecidableEq, Repr

/-- `message.arguments[argNum]` guarded: `none` when the index is not a
valid position of the descriptor array. -/
def argRead (m : TidyMessage) (argNum : Int) : Option PrintfArg :=
  if 0 ≤ argNum then m.arguments.get? argNum.toNat else none

/-- `INT_MAX` for the platform's `int`. -/
def intMax (P : Platform) : Int := 2 ^ (8 * P.sizeofInt - 1) - 1

/-- `(int)` cast of a wider signed value: two's-complement wrap to the
platform `int` width. -/
def swrap (P : Platform) (v : Int) : Int :=
  (v + 2 ^ (8 * P.sizeofInt - 1)) % 2 ^ (8 * P.sizeofInt) - 2 ^ (8 * P.sizeofInt - 1)

/-- `(uint)` cast: wrap to the platform `unsigned int` width. -/
def uwrapInt (P : Platform) (v : Int) : Nat :=
  (v % (2 ^ (8 * P.sizeofInt) : Int)).toNat

/-- `TY_(getArgType)`. -/
def getArgType (m : TidyMessage) (argNum : Int) : GetterResult Ty :=
  if ¬ (argNum ≤ m.argcount) then .assertFail
  else
    match argRead m argNum with
    | none => .ubRead
    | some a => .ok a.type

/-- `TY_(getArgFormat)`. -/
def getArgFormat (m : TidyMessage) (argNum : Int) : GetterResult (List Char) :=
  if ¬ (argNum ≤ m.argcount) then .assertFail
  else
    match argRead m argNum with
    | none => .ubRead
    | some a => .ok a.format

/-- `TY_(getArgValueString)`: asserts the index, reads the descriptor,
asserts `type == tidyFormatType_STRING`, returns `u.s`. -/
def getArgValueString (m : TidyMessage) (argNum : Int) : GetterResult (List Char) :=
  if ¬ (argNum ≤ m.argcount) then .assertFail
  else
    match argRead m argNum with
    | none => .ubRead
    | some a =>
      if a.type ≠ Ty.STRING then .assertFail
      else
        match a.u with
        | .s str => .ok str
        | _ => .ubRead

/-- `TY_(getArgValueUInt)`: the switch on the descriptor type computes
`result` and `typeIsValid`; `assert(typeIsValid == yes)` follows. -/
def getArgValueUInt (P : Platform) (m : TidyMessage) (argNum : Int) : GetterResult Nat :=
  if ¬ (argNum ≤ m.argcount) then .assertFail
  else
    match argRead m argNum with
    | none => .ubRead
    | some a =>
      match a.type with
      | .UINTN =>
        (match a.u with
         | .ui v => .ok v                -- (uint)u.ui
         | _ => .ubRead)
      | .UINT16 =>
        if P.sizeofInt ≤ 2 then          -- sizeof(uint) <= sizeof(uint16_t)
          (match a.u with
           | .i v => .ok (uwrapInt P v)  -- (uint)u.i
           | _ => .ubRead)
        else .assertFail
      | .UINT32 =>
        if P.sizeofInt ≤ 4 then          -- sizeof(uint) <= sizeof(uint32_t)
          (match a.u with
           | .ui32 v => .ok (v % 2 ^ (8 * P.sizeofInt))  -- (uint)u.ui32
           | _ => .ubRead)
        else .assertFail
      | .UINT64 =>
        if P.sizeofInt ≤ 8 then          -- sizeof(uint) <= sizeof(uint64_t)
          (match a.u with
           | .ull v => .ok (v % 2 ^ (8 * P.sizeofInt))   -- (uint)u.ull
           | _ => .ubRead)
        else .assertFail
      | _ => .assertFail

/-- `TY_(getArgValueInt)`: like the unsigned getter, with the
additional unsigned cases admitted when the stored value is at most
`INT_MAX`. -/
def getArgValueInt (P : Platform) (m : TidyMessage) (argNum : Int) : GetterResult Int :=
  if ¬ (argNum ≤ m.argcount) then .assertFail
  else
    match argRead m argNum with
    | none => .ubRead
    | some a =>
      match a.type with
      | .INTN =>
        (match a.u with
         | .i v => .ok v                 -- (int)u.i
         | _ => .ubRead)
      | .INT16 =>
        if P.sizeofInt ≤ 2 then          -- sizeof(int) <= sizeof(int16_t)
          (match a.u with
           | .i v => .ok v               -- (int)u.i
           | _ => .ubRead)
        else .assertFail
      | .INT32 =>
        if P.sizeofInt ≤ 4 then          -- sizeof(int) <= sizeof(int32_t)
          (match a.u with
           | .i32 v => .ok (swrap P v)   -- (int)u.i32
           | _ => .ubRead)
        else .assertFail
      | .INT64 =>
        if P.sizeofInt ≤ 8 then          -- sizeof(int) <= sizeof(int64_t)
          (match a.u with
           | .ll v => .ok (swrap P v)    -- (int)u.ll
           | _ => .ubRead)
        else .assertFail
      | .UINTN =>
        (match a.u with
         | .ui v => if (v : Int) ≤ intMax P then .ok (v : Int) else .assertFail
         | _ => .ubRead)
      | .UINT16 =>
        if P.sizeofInt ≤ 2 then          -- sizeof(int) <= sizeof(int16_t) && u.i <= INT_MAX
          (match a.u with
           | .i v => if v ≤ intMax P then .ok v else .assertFail
           | _ => .ubRead)
        else .assertFail
      | .UINT32 =>
        if P.sizeofInt ≤ 4 then
          (match a.u with
           | .ui32 v => if (v : Int) ≤ intMax P then .ok (v : Int) else .assertFail
           | _ => .ubRead)
        else .assertFail
      | .UINT64 =>
        if P.sizeofInt ≤ 8 then
          (match a.u with
           | .ull v => if (v : Int) ≤ intMax P then .ok (v : Int) else .assertFail
           | _ => .ubRead)
        else .assertFail
      | _ => .assertFail

/-- `TY_(getArgValueDouble)` (the double value stays opaque). -/
def getArgValueDouble (m : TidyMessage) (argNum : Int) : GetterResult Nat :=
  if ¬ (argNum ≤ m.argcount) then .assertFail
  else
    match argRead m argNum with
    | none => .ubRead
    | some a =>
      if a.type ≠ Ty.DOUBLE then .assertFail
      else
        match a.u with
        | .d bits => .ok bits
        | _ => .ubRead

/-! ## The claims -/

/-- **C1.** For every format string containing N valid (non-`%%`)
conversion specifiers, none of which uses an unsupported feature, the
scanner returns a success status with exactly N argument descriptors in
left-to-right order (N = 0 gives the `NULL`-with-`*rv = 0` success
result), and each descriptor's kind equals the kind assigned by the
mapping table (`tableKind`, written from the claim's words): `d i o u x
X c` keep the size selected by the length modifier (default native
signed int; `h` 16-bit, `l` 32-bit, `ll` and `L` 64-bit, `z`
pointer-sized), `e f g` give double, `p` gives an unsigned integer of
the native pointer width, `s` gives string, `n` gives the write-back
integer-count pointer.  Platform hypotheses: pointers are 4 or 8 bytes
and `size_t` has the pointer width (the claim's "pointer-sized" for
`z`, which the code reads off `sizeof(size_t)`). -/
theorem c1_scanner_mapping (P : Platform)
    (hptr : P.sizeofVoidPtr = 4 ∨ P.sizeofVoidPtr = 8)
    (hzs : P.sizeofSizeT = P.sizeofVoidPtr)
    (items : List FmtItem) (hwf : ∀ it ∈ items, WFItem it)
    (args : List UArg)
    (hargs : argsMatch ((specsOf items).map (tableKind P)) args = true) :
    (specsOf items = [] ∧ buildArgArray P (renderFmt items) args = .nullZero) ∨
    (specsOf items ≠ [] ∧ ∃ out,
      buildArgArray P (renderFmt items) args = .ok out (specsOf items).length ∧
      out.map PrintfArg.type = (specsOf items).map (tableKind P) ∧
      out.length = (specsOf items).length) := by
  have hmapeq : (specsOf items).map (codeKind P) = (specsOf items).map (tableKind P) :=
    List.map_congr_left fun sp _ => codeKind_eq_tableKind P hptr hzs sp
  have h := buildArgArray_render P items hwf
    (fun sp _ => codeKind_ne_UNKNOWN P hptr hzs sp) args (by rw [hmapeq]; exact hargs)
  rcases h with ⟨h1, h2⟩ | ⟨h1, out, h2, h3, h4⟩
  · exact Or.inl ⟨h1, h2⟩
  · exact Or.inr ⟨h1, out, h2, by rw [h3, hmapeq], h4⟩

/-- C1 at a concrete input: the format `"%d %hc%lld%s"` with matching
arguments scans to four descriptors of kinds
`[INTN, INT16, INT64, STRING]`. -/
theorem c1_scanner_mapping_witness :
    (specsOf [FmtItem.spec ⟨[], none, .nomod, .d⟩, FmtItem.lit ' ',
        FmtItem.spec ⟨[], none, .h, .c⟩, FmtItem.spec ⟨[], none, .ll, .d⟩,
        FmtItem.spec ⟨[], none, .nomod, .s⟩] = [] ∧
      buildArgArray lp64
        (renderFmt [FmtItem.spec ⟨[], none, .nomod, .d⟩, FmtItem.lit ' ',
          FmtItem.spec ⟨[], none, .h, .c⟩, FmtItem.spec ⟨[], none, .ll, .d⟩,
          FmtItem.spec ⟨[], none, .nomod, .s⟩])
        [UArg.int 42, UArg.int 65, UArg.int64 9000000000, UArg.str ['h', 'i']] =
          .nullZero) ∨
    (specsOf [FmtItem.spec ⟨[], none, .nomod, .d⟩, FmtItem.lit ' ',
        FmtItem.spec ⟨[], none, .h, .c⟩, FmtItem.spec ⟨[], none, .ll, .d⟩,
        FmtItem.spec ⟨[], none, .nomod, .s⟩] ≠ [] ∧ ∃ out,
      buildArgArray lp64
        (renderFmt [FmtItem.spec ⟨[], none, .nomod, .d⟩, FmtItem.lit ' ',
          FmtItem.spec ⟨[], none, .h, .c⟩, FmtItem.spec ⟨[], none, .ll, .d⟩,
          FmtItem.spec ⟨[], none, .nomod, .s⟩])
        [UArg.int 42, UArg.int 65, UArg.int64 9000000000, UArg.str ['h', 'i']] =
          .ok out (specsOf [FmtItem.spec ⟨[], none, .nomod, .d⟩, FmtItem.lit ' ',
            FmtItem.spec ⟨[], none, .h, .c⟩, FmtItem.spec ⟨[], none, .ll, .d⟩,
            FmtItem.spec ⟨[], none, .nomod, .s⟩]).length ∧
      out.map PrintfArg.type =
        (specsOf [FmtItem.spec ⟨[], none, .nomod, .d⟩, FmtItem.lit ' ',
          FmtItem.spec ⟨[], none, .h, .c⟩, FmtItem.spec ⟨[], none, .ll, .d⟩,
          FmtItem.spec ⟨[], none, .nomod, .s⟩]).map (tableKind lp64) ∧
      out.length = (specsOf [FmtItem.spec ⟨[], none, .nomod, .d⟩, FmtItem.lit ' ',
        FmtItem.spec ⟨[], none, .h, .c⟩, FmtItem.spec ⟨[], none, .ll, .d⟩,
        FmtItem.spec ⟨[], none, .nomod, .s⟩]).length) :=
  c1_scanner_mapping lp64 (by decide) (by decide) _ (by decide) _ (by decide)

/-- **C9.** A format string whose only `%`-introduced sequences are
`%%` escapes (the empty format included) scans to zero descriptors with
the success result carrying count zero (`NULL`, `*rv = 0`), which is a
different outcome from the failure result (`NULL`, `*rv = -1`): callers
can tell "no arguments" from "failed to parse arguments". -/
theorem c9_percent_escapes_only (P : Platform) (items : List FmtItem)
    (hwf : ∀ it ∈ items, WFItem it) (hnospec : specsOf items = [])
    (args : List UArg) :
    buildArgArray P (renderFmt items) args = .nullZero ∧
      ScanResult.nullZero ≠ ScanResult.fail := by
  refine ⟨?_, by simp⟩
  have hcount : countLoop (renderFmt items ++ [NUL]) 0 = .ok (specsOf items).length := by
    rw [countLoop_render items hwf [NUL] 0, countLoop_nul]
    simp
  unfold buildArgArray
  rw [hcount]
  simp [hnospec]

/-- C9 at a concrete input: `"100%% done"`-style formats (literals and
one `%%` escape) and the empty format give the success result with zero
count. -/
theorem c9_percent_escapes_only_witness :
    (buildArgArray lp64
       (renderFmt [FmtItem.lit '1', FmtItem.lit '0', FmtItem.lit '0', FmtItem.escape,
         FmtItem.lit ' ', FmtItem.lit 'd', FmtItem.lit 'o', FmtItem.lit 'n',
         FmtItem.lit 'e']) [] = .nullZero ∧
      ScanResult.nullZero ≠ ScanResult.fail) ∧
    (buildArgArray lp64 (renderFmt []) [] = .nullZero ∧
      ScanResult.nullZero ≠ ScanResult.fail) :=
  ⟨c9_percent_escapes_only lp64 _ (by decide) (by decide) [],
   c9_percent_escapes_only lp64 [] (by decide) (by decide) []⟩

/-- **C10.** On a format string whose final character is a single
unescaped `%`, the counting pass counts the trailing `%` as a specifier
(its result records one more than the specifiers before it) and its
loop-condition read then advances past the end of the string (past the
NUL terminator): in this total embedding, where reads are guarded, the
out-of-bounds branch is reached, so `BuildArgArray` lands in the `oob`
outcome and scanning is not well-defined for every format string. -/
theorem c10_trailing_percent (P : Platform) (items : List FmtItem)
    (hwf : ∀ it ∈ items, WFItem it) (args : List UArg) :
    countLoop ((renderFmt items ++ ['%']) ++ [NUL]) 0 =
      .oob ((specsOf items).length + 1) ∧
    buildArgArray P (renderFmt items ++ ['%']) args = .oob := by
  have hshape : (renderFmt items ++ ['%']) ++ [NUL] = renderFmt items ++ ('%' :: [NUL]) := by
    rw [List.append_assoc]
    rfl
  have hcount : countLoop ((renderFmt items ++ ['%']) ++ [NUL]) 0 =
      .oob ((specsOf items).length + 1) := by
    rw [hshape, countLoop_render items hwf ('%' :: [NUL]) 0]
    simp [countLoop, NUL]
  refine ⟨hcount, ?_⟩
  unfold buildArgArray
  rw [hcount]

/-- C10 at a concrete input: the format `"%"` itself. -/
theorem c10_trailing_percent_witness :
    countLoop ((renderFmt [] ++ ['%']) ++ [NUL]) 0 = .oob ((specsOf []).length + 1) ∧
    buildArgArray lp64 (renderFmt [] ++ ['%']) [] = .oob :=
  c10_trailing_percent lp64 [] (by decide) []

/-- A `*` directly after the `%` (dynamic width) fails the specifier
scan at once. -/
theorem scanSpec_star (P : Platform) (buf : List Char) (j : Nat) :
    scanSpec P '*' buf j = .fail := by
  unfold scanSpec
  simp

/-- **C2.** A format string in which some specifier gives its width or
precision as a run-time value (`*`) makes `BuildArgArray` return the
failure status (`*rv = -1`, `NULL`: the partially built array is
released, no descriptors reach the caller), whatever the arguments.
The format is any well-formed prefix followed by `%*…` (dynamic width)
or `%[digits].*…` (dynamic precision); the counting pass is assumed to
terminate (`isOk`), which excludes the separate trailing-`%`
out-of-bounds behaviour of C10. -/
theorem c2_dynamic_width_precision_fails (P : Platform) (pre : List FmtItem)
    (hpre : ∀ it ∈ pre, WFItem it)
    (hkpre : ∀ sp ∈ specsOf pre, codeKind P sp ≠ Ty.UNKNOWN)
    (tail wd suffix : List Char) (hwd : ∀ d ∈ wd, d.isDigit = true)
    (hshape : tail = '*' :: suffix ∨ tail = wd ++ '.' :: '*' :: suffix)
    (args : List UArg)
    (hscan : (countLoop ((renderFmt pre ++ '%' :: tail) ++ [NUL]) 0).isOk = true) :
    buildArgArray P (renderFmt pre ++ '%' :: tail) args = .fail := by
  have hbufshape : (renderFmt pre ++ '%' :: tail) ++ [NUL] =
      renderFmt pre ++ '%' :: (tail ++ [NUL]) := by
    rw [List.append_assoc]
    rfl
  -- the character after the `%`, and the rest of the buffer
  obtain ⟨c2, rest2, htail, hc2, hstar⟩ :
      ∃ c2 rest2, tail ++ [NUL] = c2 :: rest2 ∧ c2 ≠ '%' ∧
        scanSpec P c2 rest2 ((renderFmt pre).length + 2) = .fail := by
    rcases hshape with h | h
    · refine ⟨'*', suffix ++ [NUL], by rw [h]; rfl, by decide, ?_⟩
      exact scanSpec_star P _ _
    · have hsplit : tail ++ [NUL] = wd ++ '.' :: '*' :: (suffix ++ [NUL]) := by
        rw [h]
        simp
      cases hwdc : wd with
      | nil =>
        refine ⟨'.', '*' :: (suffix ++ [NUL]), by rw [hsplit, hwdc]; rfl, by decide, ?_⟩
        exact scanSpec_prec_star P wd hwd (suffix ++ [NUL]) _ '.' ('*' :: (suffix ++ [NUL]))
          (by rw [hwdc]; rfl)
      | cons d0 ds0 =>
        have hd0 : d0.isDigit = true := by rw [hwdc] at hwd; exact hwd d0 (by simp)
        refine ⟨d0, ds0 ++ '.' :: '*' :: (suffix ++ [NUL]),
          by rw [hsplit, hwdc]; rfl, digit_ne_pct d0 hd0, ?_⟩
        exact scanSpec_prec_star P wd hwd (suffix ++ [NUL]) _ d0
          (ds0 ++ '.' :: '*' :: (suffix ++ [NUL])) (by rw [hwdc]; rfl)
  -- the first pass terminated with a nonzero count
  obtain ⟨n, hn⟩ : ∃ n, countLoop ((renderFmt pre ++ '%' :: tail) ++ [NUL]) 0 = .ok n := by
    cases hcl : countLoop ((renderFmt pre ++ '%' :: tail) ++ [NUL]) 0 with
    | ok n => exact ⟨n, rfl⟩
    | oob n => rw [hcl] at hscan; simp [CountResult.isOk] at hscan
  have hn2 : countLoop rest2 ((specsOf pre).length + 1) = .ok n := by
    rw [hbufshape, countLoop_render pre hpre ('%' :: (tail ++ [NUL])) 0, htail] at hn
    rw [countLoop_pct c2 rest2 _ hc2] at hn
    simpa using hn
  have hnz : n ≠ 0 := by
    have := countLoop_ok_ge rest2 _ n hn2
    omega
  have hclass : classifyLoop P (renderFmt pre ++ '%' :: tail)
      ((renderFmt pre ++ '%' :: tail) ++ [NUL]) 0 [] = .fail := by
    rw [hbufshape]
    rw [classifyLoop_render P (renderFmt pre ++ '%' :: tail) pre hpre hkpre
      ('%' :: (tail ++ [NUL])) 0 []]
    rw [htail]
    simp only [List.nil_append, Nat.zero_add]
    exact classifyLoop_specfail P _ c2 rest2 _ _ hc2 hstar
  exact buildArgArray_classifyfail P _ args n hn hnz hclass

/-- C2 at concrete inputs: `"%*d"` (dynamic width) and `"%5.*d"`
(dynamic precision) both fail with no descriptor array. -/
theorem c2_dynamic_width_precision_fails_witness :
    buildArgArray lp64 (renderFmt [] ++ '%' :: ('*' :: ['d'])) [] = .fail ∧
    buildArgArray lp64 (renderFmt [] ++ '%' :: (['5'] ++ '.' :: '*' :: ['d'])) [] = .fail :=
  ⟨c2_dynamic_width_precision_fails lp64 [] (by decide) (by decide) _ ['5'] ['d']
      (by decide) (Or.inl rfl) [] (by decide),
   c2_dynamic_width_precision_fails lp64 [] (by decide) (by decide) _ ['5'] ['d']
      (by decide) (Or.inr rfl) [] (by decide)⟩

/-- The two composed outputs of an assembled record are the selected
pattern applied to its own position, prefix and message fields
(severity overrides position availability in the pattern choice). -/
theorem assembleMessage_outputs (doc : TidyDocState) (co : Collab) (code : Nat)
    (line column : Int) (level : Nat) (args : List UArg)
    (arguments : List PrintfArg) (argcount : Int) :
    ((assembleMessage doc co code line column level args arguments argcount).messageOutputDefault =
      formatOutput
        (if TidyFatal < level then OutputPattern.noPosNoPrefix
         else if 0 < line ∧ 0 < column then OutputPattern.full else OutputPattern.noPos)
        (assembleMessage doc co code line column level args arguments argcount).messagePosDefault
        (assembleMessage doc co code line column level args arguments argcount).messagePrefixDefault
        (assembleMessage doc co code line column level args arguments argcount).messageDefault) ∧
    ((assembleMessage doc co code line column level args arguments argcount).messageOutput =
      formatOutput
        (if TidyFatal < level then OutputPattern.noPosNoPrefix
         else if 0 < line ∧ 0 < column then OutputPattern.full else OutputPattern.noPos)
        (assembleMessage doc co code line column level args arguments argcount).messagePos
        (assembleMessage doc co code line column level args arguments argcount).messagePrefix
        (assembleMessage doc co code line column level args arguments argcount).message) :=
  ⟨rfl, rfl⟩

/-- The three composition cases, stated over the assembled record. -/
theorem assembleMessage_composition (doc : TidyDocState) (co : Collab) (code : Nat)
    (line column : Int) (level : Nat) (args : List UArg)
    (arguments : List PrintfArg) (argcount : Int) :
    (TidyFatal < level →
      (assembleMessage doc co code line column level args arguments argcount).messageOutputDefault =
        sn (assembleMessage doc co code line column level args arguments argcount).messageDefault ∧
      (assembleMessage doc co code line column level args arguments argcount).messageOutput =
        sn (assembleMessage doc co code line column level args arguments argcount).message) ∧
    (¬ TidyFatal < level → 0 < line → 0 < column →
      (assembleMessage doc co code line column level args arguments argcount).messageOutputDefault =
        sn ((assembleMessage doc co code line column level args arguments argcount).messagePosDefault ++
            (assembleMessage doc co code line column level args arguments argcount).messagePrefixDefault ++
            (assembleMessage doc co code line column level args arguments argcount).messageDefault) ∧
      (assembleMessage doc co code line column level args arguments argcount).messageOutput =
        sn ((assembleMessage doc co code line column level args arguments argcount).messagePos ++
            (assembleMessage doc co code line column level args arguments argcount).messagePrefix ++
            (assembleMessage doc co code line column level args arguments argcount).message)) ∧
    (¬ TidyFatal < level → ¬ (0 < line ∧ 0 < column) →
      (assembleMessage doc co code line column level args arguments argcount).messageOutputDefault =
        sn ((assembleMessage doc co code line column level args arguments argcount).messagePrefixDefault ++
            (assembleMessage doc co code line column level args arguments argcount).messageDefault) ∧
      (assembleMessage doc co code line column level args arguments argcount).messageOutput =
        sn ((assembleMessage doc co code line column level args arguments argcount).messagePrefix ++
            (assembleMessage doc co code line column level args arguments argcount).message)) := by
  obtain ⟨h1, h2⟩ := assembleMessage_outputs doc co code line column level args arguments argcount
  refine ⟨?_, ?_, ?_⟩
  · intro hl
    rw [h1, h2]
    simp [hl, formatOutput]
  · intro hl hline hcol
    rw [h1, h2]
    simp [hl, hline, hcol, formatOutput]
  · intro hl hnpos
    rw [h1, h2]
    simp [hl, hnpos, formatOutput]

/-- **C7.** The composed output of a constructed record, in both
locales through the same chosen pattern, follows exactly one of three
cases: positive line and column with a non-dialogue severity give
position + prefix + message; a missing position with a non-dialogue
severity gives prefix + message; a dialogue-class severity gives the
message alone, whatever the position (dialogue wins over position
availability).  Each string is rendered through the fixed
`sizeMessageBuf` bound (`sn`). -/
theorem c7_composed_output (P : Platform) (doc : TidyDocState) (co : Collab)
    (code : Nat) (line column : Int) (level : Nat) (args : List UArg)
    (m : TidyMessage)
    (hm : tidyMessageCreateInitV P doc co code line column level args = some m) :
    (TidyFatal < level →
      m.messageOutputDefault = sn m.messageDefault ∧
      m.messageOutput = sn m.message) ∧
    (¬ TidyFatal < level → 0 < line → 0 < column →
      m.messageOutputDefault =
        sn (m.messagePosDefault ++ m.messagePrefixDefault ++ m.messageDefault) ∧
      m.messageOutput = sn (m.messagePos ++ m.messagePrefix ++ m.message)) ∧
    (¬ TidyFatal < level → ¬ (0 < line ∧ 0 < column) →
      m.messageOutputDefault = sn (m.messagePrefixDefault ++ m.messageDefault) ∧
      m.messageOutput = sn (m.messagePrefix ++ m.message)) := by
  unfold tidyMessageCreateInitV at hm
  cases hb : buildArgArray P (co.defaultString code) args with
  | oob => rw [hb] at hm; simp at hm
  | ub => rw [hb] at hm; simp at hm
  | fail =>
    rw [hb] at hm
    simp only [Option.some.injEq] at hm
    rw [← hm]
    exact assembleMessage_composition doc co code line column level args [] (-1)
  | nullZero =>
    rw [hb] at hm
    simp only [Option.some.injEq] at hm
    rw [← hm]
    exact assembleMessage_composition doc co code line column level args [] 0
  | ok descs n =>
    rw [hb] at hm
    simp only [Option.some.injEq] at hm
    rw [← hm]
    exact assembleMessage_composition doc co code line column level args descs (n : Int)

/-- A fixed document state with no observers, for concrete instances. -/
def sampleDoc : TidyDocState := ⟨none, none, none, false, none⟩

/-- A fixed collaborator assembly: empty localization strings, a
renderer echoing the format, for concrete instances. -/
def sampleCollab : Collab :=
  ⟨fun _ => [], fun _ => [], fun _ => [], fun f _ => f, fun s _ _ => s⟩

/-- C7 at a concrete input: code 0, line 5, column 10, level 350
(within the diagnostic range), no observers. -/
theorem c7_composed_output_witness :
    (TidyFatal < 350 →
      (assembleMessage sampleDoc sampleCollab 0 5 10 350 [] [] 0).messageOutputDefault =
        sn (assembleMessage sampleDoc sampleCollab 0 5 10 350 [] [] 0).messageDefault ∧
      (assembleMessage sampleDoc sampleCollab 0 5 10 350 [] [] 0).messageOutput =
        sn (assembleMessage sampleDoc sampleCollab 0 5 10 350 [] [] 0).message) ∧
    (¬ TidyFatal < 350 → 0 < (5 : Int) → 0 < (10 : Int) →
      (assembleMessage sampleDoc sampleCollab 0 5 10 350 [] [] 0).messageOutputDefault =
        sn ((assembleMessage sampleDoc sampleCollab 0 5 10 350 [] [] 0).messagePosDefault ++
            (assembleMessage sampleDoc sampleCollab 0 5 10 350 [] [] 0).messagePrefixDefault ++
            (assembleMessage sampleDoc sampleCollab 0 5 10 350 [] [] 0).messageDefault) ∧
      (assembleMessage sampleDoc sampleCollab 0 5 10 350 [] [] 0).messageOutput =
        sn ((assembleMessage sampleDoc sampleCollab 0 5 10 350 [] [] 0).messagePos ++
            (assembleMessage sampleDoc sampleCollab 0 5 10 350 [] [] 0).messagePrefix ++
            (assembleMessage sampleDoc sampleCollab 0 5 10 350 [] [] 0).message)) ∧
    (¬ TidyFatal < 350 → ¬ (0 < (5 : Int) ∧ 0 < (10 : Int)) →
      (assembleMessage sampleDoc sampleCollab 0 5 10 350 [] [] 0).messageOutputDefault =
        sn ((assembleMessage sampleDoc sampleCollab 0 5 10 350 [] [] 0).messagePrefixDefault ++
            (assembleMessage sampleDoc sampleCollab 0 5 10 350 [] [] 0).messageDefault) ∧
      (assembleMessage sampleDoc sampleCollab 0 5 10 350 [] [] 0).messageOutput =
        sn ((assembleMessage sampleDoc sampleCollab 0 5 10 350 [] [] 0).messagePrefix ++
            (assembleMessage sampleDoc sampleCollab 0 5 10 350 [] [] 0).message)) :=
  c7_composed_output lp64 sampleDoc sampleCollab 0 5 10 350 [] _ rfl

/-- **C8.** The `allowMessage` flag of a constructed record is the
logical AND of the verdicts of every observer that was registered and
invoked (default `true` with none registered); every registered,
eligible observer is invoked — the formula below depends on each
registered callback's verdict even when an earlier verdict is `false`,
so there is no short-circuit.  The legacy filters are eligible when the
severity is within the diagnostic range; the structured-record observer
receives the record carrying the two legacy verdicts accumulated so
far. -/
theorem c8_allow_and_of_verdicts (P : Platform) (doc : TidyDocState) (co : Collab)
    (code : Nat) (line column : Int) (level : Nat) (args : List UArg)
    (m : TidyMessage)
    (hm : tidyMessageCreateInitV P doc co code line column level args = some m) :
    m.allowMessage =
      ((match doc.reportFilter with
        | some f => if level ≤ TidyFatal then f level line column m.messageOutput else true
        | none => true) &&
       (match doc.reportCallback with
        | some f => if level ≤ TidyFatal then f level line column m.messageKey args else true
        | none => true) &&
       (match doc.messageCallback with
        | some f => f { m with allowMessage :=
            ((match doc.reportFilter with
              | some f1 => if level ≤ TidyFatal then f1 level line column m.messageOutput else true
              | none => true) &&
             (match doc.reportCallback with
              | some f2 => if level ≤ TidyFatal then f2 level line column m.messageKey args else true
              | none => true)) }
        | none => true)) := by
  unfold tidyMessageCreateInitV at hm
  obtain ⟨rf, rc, mc, em, ef⟩ := doc
  cases hb : buildArgArray P (co.defaultString code) args <;> rw [hb] at hm <;>
    simp only [Option.some.injEq] at hm
  case oob => cases hm
  case ub => cases hm
  all_goals (
    rw [← hm]
    unfold assembleMessage
    cases rf <;> cases rc <;> cases mc <;>
      by_cases hl : level ≤ TidyFatal <;>
      simp [hl])

/-- A document state with all three observers registered (the legacy
boolean filter vetoes), for concrete instances. -/
def c8doc : TidyDocState :=
  ⟨some (fun _ _ _ _ => false), some (fun _ _ _ _ _ => true),
   some (fun _ => true), false, none⟩

/-- C8 at a concrete input: all three observers registered, the first
verdict `false`, severity within the diagnostic range. -/
theorem c8_allow_and_of_verdicts_witness :
    (assembleMessage c8doc sampleCollab 0 1 1 350 [] [] 0).allowMessage =
      ((match c8doc.reportFilter with
        | some f => if 350 ≤ TidyFatal then
            f 350 1 1 (assembleMessage c8doc sampleCollab 0 1 1 350 [] [] 0).messageOutput
          else true
        | none => true) &&
       (match c8doc.reportCallback with
        | some f => if 350 ≤ TidyFatal then
            f 350 1 1 (assembleMessage c8doc sampleCollab 0 1 1 350 [] [] 0).messageKey []
          else true
        | none => true) &&
       (match c8doc.messageCallback with
        | some f => f { (assembleMessage c8doc sampleCollab 0 1 1 350 [] [] 0) with
            allowMessage :=
            ((match c8doc.reportFilter with
              | some f1 => if 350 ≤ TidyFatal then
                  f1 350 1 1 (assembleMessage c8doc sampleCollab 0 1 1 350 [] [] 0).messageOutput
                else true
              | none => true) &&
             (match c8doc.reportCallback with
              | some f2 => if 350 ≤ TidyFatal then
                  f2 350 1 1 (assembleMessage c8doc sampleCollab 0 1 1 350 [] [] 0).messageKey []
                else true
              | none => true)) }
        | none => true)) :=
  c8_allow_and_of_verdicts lp64 c8doc sampleCollab 0 1 1 350 [] _ rfl

/-- With a dialogue-class severity the two legacy filters are never
consulted: the assembled record does not depend on them. -/
theorem assembleMessage_dialogue_legacy (rf : Option (Nat → Int → Int → List Char → Bool))
    (rc : Option (Nat → Int → Int → List Char → List UArg → Bool))
    (mc : Option (TidyMessage → Bool)) (em : Bool) (ef : Option (List Char))
    (co : Collab) (code : Nat) (line column : Int) (level : Nat) (args : List UArg)
    (arguments : List PrintfArg) (argcount : Int) (hlevel : TidyFatal < level) :
    assembleMessage ⟨rf, rc, mc, em, ef⟩ co code line column level args arguments argcount =
      assembleMessage ⟨none, none, mc, em, ef⟩ co code line column level args arguments argcount := by
  have hn : ¬ level ≤ TidyFatal := by omega
  unfold assembleMessage
  cases rf <;> cases rc <;> simp [hn]

/-- **C3 (counterexample).** The claim says a dialogue-class severity
skips callback dispatch entirely, so none of the three observers is
invoked — in which case `allowMessage` would stay `true`.  But the
structured-record observer (`messageCallback`) is dispatched with no
severity guard: registering one that returns `false` and constructing a
record at severity `TidyFatal + 1` yields `allowMessage = false`, so
the observer was invoked. -/
theorem c3_counterexample :
    Option.map TidyMessage.allowMessage
      (tidyMessageCreateInitV lp64
        ⟨none, none, some (fun _ => false), false, none⟩
        sampleCollab 0 5 10 (TidyFatal + 1) []) = some false := rfl

/-- **C3 (amended).** During record construction with a dialogue-class
severity, the two legacy observers (`reportFilter`,
`reportCallback`) are skipped — the record does not depend on them —
but the structured-record observer (`messageCallback`) is still
dispatched, and `allowMessage` is its verdict (default `true`): the
record passed to it carries `allowMessage = true`, the conjunction of
the zero legacy verdicts taken. -/
theorem c3_dialogue_dispatch (P : Platform)
    (rf : Option (Nat → Int → Int → List Char → Bool))
    (rc : Option (Nat → Int → Int → List Char → List UArg → Bool))
    (mc : Option (TidyMessage → Bool)) (em : Bool) (ef : Option (List Char))
    (co : Collab) (code : Nat) (line column : Int) (level : Nat) (args : List UArg)
    (hlevel : TidyFatal < level) :
    tidyMessageCreateInitV P ⟨rf, rc, mc, em, ef⟩ co code line column level args =
      tidyMessageCreateInitV P ⟨none, none, mc, em, ef⟩ co code line column level args ∧
    (∀ m, tidyMessageCreateInitV P ⟨rf, rc, mc, em, ef⟩ co code line column level args = some m →
      m.allowMessage = (match mc with
        | some f => f { m with allowMessage := true }
        | none => true)) := by
  have hn : ¬ level ≤ TidyFatal := by omega
  constructor
  · unfold tidyMessageCreateInitV
    cases hb : buildArgArray P (co.defaultString code) args <;> simp only [] <;>
      rw [assembleMessage_dialogue_legacy _ _ _ _ _ _ _ _ _ _ _ _ _ hlevel]
  · intro m hm
    unfold tidyMessageCreateInitV at hm
    cases hb : buildArgArray P (co.defaultString code) args <;> rw [hb] at hm <;>
      simp only [Option.some.injEq] at hm
    case oob => cases hm
    case ub => cases hm
    all_goals (
      rw [← hm]
      unfold assembleMessage
      cases rf <;> cases rc <;> cases mc <;> simp [hn])

/-- C3 (amended) at a concrete input: dialogue-class severity, all
three observers registered; the record is independent of the legacy
filters, and the structured observer's `false` verdict lands in
`allowMessage`. -/
theorem c3_dialogue_dispatch_witness :
    (tidyMessageCreateInitV lp64
        ⟨some fun _ _ _ _ => false, some fun _ _ _ _ _ => false,
         some fun _ => false, false, none⟩
        sampleCollab 0 5 10 (TidyFatal + 1) [] =
      tidyMessageCreateInitV lp64
        ⟨none, none, some fun _ => false, false, none⟩
        sampleCollab 0 5 10 (TidyFatal + 1) []) ∧
    (assembleMessage
        ⟨some fun _ _ _ _ => false, some fun _ _ _ _ _ => false,
         some fun _ => false, false, none⟩
        sampleCollab 0 5 10 (TidyFatal + 1) [] [] 0).allowMessage = false := by
  have h := c3_dialogue_dispatch lp64 (some fun _ _ _ _ => false)
    (some fun _ _ _ _ _ => false) (some fun _ => false) false none
    sampleCollab 0 5 10 (TidyFatal + 1) [] (by decide)
  exact ⟨h.1, h.2 _ rfl⟩

/-- **C6 (counterexample).** The claim says an unknown-kind descriptor
reaching the consume pass is treated as a fatal failure, not skipped.
But the pass's first step is `if (type == UNKNOWN) { cn++; continue; }`:
an `UNKNOWN` descriptor is skipped — no argument is drawn for it — and
consumption continues normally with the next descriptor. -/
theorem c6_counterexample :
    consumeLoop
        [⟨Ty.UNKNOWN, 0, 2, ['%', 'q'], ArgUnion.uninit⟩,
         ⟨Ty.INTN, 2, 2, ['%', 'd'], ArgUnion.uninit⟩]
        [UArg.int 5] =
      .ok [⟨Ty.UNKNOWN, 0, 2, ['%', 'q'], ArgUnion.uninit⟩,
           ⟨Ty.INTN, 2, 2, ['%', 'd'], ArgUnion.i 5⟩] := by decide

/-- **C6 (amended).** The consume pass is entered only when
classification fully succeeded (a failed classify pass makes
`BuildArgArray` fail for every argument list, consuming nothing); an
unknown-kind descriptor encountered by the consume pass is *skipped*
without drawing an argument, and the pass continues; the
abort-release-and-fail arm (`default:`) belongs to kinds with no
consume case — on a non-Windows build, the wide-string kind. -/
theorem c6_consume_pass (P : Platform) :
    (∀ (fmt : List Char) (args : List UArg) (n : Nat),
      countLoop (fmt ++ [NUL]) 0 = .ok n → n ≠ 0 →
      classifyLoop P fmt (fmt ++ [NUL]) 0 [] = .fail →
      buildArgArray P fmt args = .fail) ∧
    (∀ (a : PrintfArg) (ds : List PrintfArg) (args : List UArg),
      a.type = Ty.UNKNOWN →
      consumeLoop (a :: ds) args =
        (match consumeLoop ds args with
         | .ok rest => .ok (a :: rest)
         | .fatal => .fatal
         | .ub => .ub)) ∧
    (∀ (a : PrintfArg) (ds : List PrintfArg) (args : List UArg),
      a.type = Ty.WSTRING → consumeLoop (a :: ds) args = .fatal) := by
  refine ⟨?_, ?_, ?_⟩
  · intro fmt args n hc hn hcl
    exact buildArgArray_classifyfail P fmt args n hc hn hcl
  · intro a ds args ha
    cases args <;> simp [consumeLoop, ha]
  · intro a ds args ha
    cases args <;> simp [consumeLoop, ha]

/-- C6 at concrete inputs: a classify failure (`"%q"`) fails the whole
scan before any consumption; an unknown descriptor is skipped with no
argument drawn; a wide-string descriptor hits the fatal arm. -/
theorem c6_consume_pass_witness :
    buildArgArray lp64 ['%', 'q'] [] = .fail ∧
    consumeLoop [⟨Ty.UNKNOWN, 0, 2, ['%', 'q'], ArgUnion.uninit⟩] [] =
      .ok [⟨Ty.UNKNOWN, 0, 2, ['%', 'q'], ArgUnion.uninit⟩] ∧
    consumeLoop [⟨Ty.WSTRING, 0, 2, ['%', 'S'], ArgUnion.uninit⟩] [] = .fatal := by
  have h := c6_consume_pass lp64
  refine ⟨h.1 ['%', 'q'] [] 1 (by decide) (by decide) ?_, ?_, ?_⟩
  · simp [classifyLoop, scanSpec, skipDigits, precStep, lenModStep, convType,
      ptype, ztype, NUL, FORMAT_LENGTH]
  · exact h.2.1 ⟨Ty.UNKNOWN, 0, 2, ['%', 'q'], ArgUnion.uninit⟩ [] [] rfl
  · exact h.2.2 ⟨Ty.WSTRING, 0, 2, ['%', 'S'], ArgUnion.uninit⟩ [] [] rfl

/-- A collaborator whose default-locale format for every code is
`"%d"`, for concrete instances. -/
def collabPctD : Collab :=
  ⟨fun _ => ['%', 'd'], fun _ => [], fun _ => [], fun f _ => f, fun s _ _ => s⟩

/-- **C5.** The accessor assertions are `assert(argNum <=
message.argcount)` — `<=`, not `<`.  On a record built from `"%d"`
(one descriptor, `argcount = 1`) every typed getter called with index 1
*passes* the assertion and then reads `arguments[1]`, one past the end
of the descriptor array (the guarded `ubRead` outcome, undefined in C)
— the assertion does pass for an index that lies outside the
descriptor array, contrary to the claim. -/
theorem c5_assert_off_by_one :
    Option.map
      (fun m => (m.argcount, m.arguments.length, getArgType m 1,
        getArgValueString m 1, getArgValueUInt lp64 m 1, getArgValueInt lp64 m 1,
        getArgValueDouble m 1))
      (tidyMessageCreateInitV lp64 sampleDoc collabPctD 0 1 1 350 [UArg.int 3]) =
      some (1, 1, .ubRead, .ubRead, .ubRead, .ubRead, .ubRead) := by
  have hscan : buildArgArray lp64 ['%', 'd'] [UArg.int 3] =
      .ok [⟨Ty.INTN, 0, 2, ['%', 'd'], ArgUnion.i 3⟩] 1 := by
    simp [buildArgArray, countLoop, classifyLoop, scanSpec, skipDigits, precStep,
      lenModStep, convType, consumeLoop, vaArgFor, copyFormat, NUL, FORMAT_LENGTH,
      List.range_succ]
  unfold tidyMessageCreateInitV
  have hfmt : collabPctD.defaultString 0 = ['%', 'd'] := rfl
  rw [hfmt, hscan]
  rfl

/-- A collaborator whose default-locale format for every code is
`"%hd"`, for concrete instances. -/
def collabPctHd : Collab :=
  ⟨fun _ => ['%', 'h', 'd'], fun _ => [], fun _ => [], fun f _ => f, fun s _ _ => s⟩

/-- **C4 (counterexample).** The claim says a stored narrower sized
integer — e.g. a 16-bit value — may be read through the wider native
signed-int getter without a contract violation.  On a record built
from `"%hd"` (one 16-bit descriptor) with a 32-bit `int`, the getter's
guard is `sizeof(int) <= sizeof(int16_t)`, which is false, so
`typeIsValid` is cleared and `assert(typeIsValid == yes)` fires: the
read raises the contract violation. -/
theorem c4_counterexample :
    Option.map (fun m => (m.arguments, getArgValueInt lp64 m 0))
      (tidyMessageCreateInitV lp64 sampleDoc collabPctHd 0 1 1 350 [UArg.int 7]) =
      some ([⟨Ty.INT16, 0, 3, ['%', 'h', 'd'], ArgUnion.i 7⟩],
        GetterResult.assertFail) := by
  have hscan : buildArgArray lp64 ['%', 'h', 'd'] [UArg.int 7] =
      .ok [⟨Ty.INT16, 0, 3, ['%', 'h', 'd'], ArgUnion.i 7⟩] 1 := by
    simp [buildArgArray, countLoop, classifyLoop, scanSpec, skipDigits, precStep,
      lenModStep, convType, consumeLoop, vaArgFor, copyFormat, NUL, FORMAT_LENGTH,
      List.range_succ]
  unfold tidyMessageCreateInitV
  have hfmt : collabPctHd.defaultString 0 = ['%', 'h', 'd'] := rfl
  rw [hfmt, hscan]
  rfl

/-- `(int)` cast of an `int32_t` value already within `int` range, on a
platform with 4-byte `int`, is the identity. -/
theorem swrap_id (P : Platform) (h4 : P.sizeofInt = 4) (v : Int)
    (hlo : -(2 ^ 31) ≤ v) (hhi : v < 2 ^ 31) : swrap P v = v := by
  unfold swrap
  rw [h4]
  norm_num
  omega

/-- **C4 (amended).** The typed integer getters accept: a stored
unsigned value through the signed getter when it fits (`u.ui <=
INT_MAX`); a stored 32-bit signed value through the native getter when
`int` is at most 32 bits wide (returning the stored value when it is in
range).  But a stored 16-bit value read through a *wider* accessor
raises the contract violation: the guards demand `sizeof(int) <=
sizeof(int16_t)`, i.e. the 16-bit cases are admitted only when the
native type is not wider. -/
theorem c4_widening (P : Platform) (m : TidyMessage) (k : Nat) (a : PrintfArg)
    (hget : m.arguments.get? k = some a) (hcnt : (k : Int) ≤ m.argcount) :
    (∀ v : Nat, a.type = Ty.UINTN → a.u = .ui v → (v : Int) ≤ intMax P →
      getArgValueInt P m (k : Int) = .ok (v : Int)) ∧
    (∀ v : Int, a.type = Ty.INT32 → a.u = .i32 v → P.sizeofInt = 4 →
      -(2 ^ 31) ≤ v → v < 2 ^ 31 → getArgValueInt P m (k : Int) = .ok v) ∧
    (∀ v : Int, a.type = Ty.INT16 → a.u = .i v → 2 < P.sizeofInt →
      getArgValueInt P m (k : Int) = .assertFail) ∧
    (∀ v : Int, a.type = Ty.UINT16 → a.u = .i v → 2 < P.sizeofInt →
      getArgValueUInt P m (k : Int) = .assertFail) := by
  have hread : argRead m (k : Int) = some a := by
    unfold argRead
    rw [if_pos (by positivity)]
    simpa using hget
  have hassert : ¬ ¬ ((k : Int) ≤ m.argcount) := by simpa using hcnt
  refine ⟨?_, ?_, ?_, ?_⟩
  · intro v ht hu hfit
    simp [getArgValueInt, hcnt, hread, ht, hu, hfit]
  · intro v ht hu h4 hlo hhi
    simp [getArgValueInt, hcnt, hread, ht, hu, (by omega : P.sizeofInt ≤ 4)]
    exact swrap_id P h4 v hlo hhi
  · intro v ht hu hwide
    simp [getArgValueInt, hcnt, hread, ht, (by omega : ¬ P.sizeofInt ≤ 2)]
    intro h
    omega
  · intro v ht hu hwide
    simp [getArgValueUInt, hcnt, hread, ht, (by omega : ¬ P.sizeofInt ≤ 2)]
    intro h
    omega

/-- A one-argument record holding the given descriptor, for concrete
instances. -/
def msgWith (a : PrintfArg) : TidyMessage :=
  ⟨0, 0, 0, 350, [a], 1, [], [], [], [], [], [], [], [], [], [], [], true⟩

/-- C4 (amended) at concrete inputs: a record with a `UINTN` value 5
read as signed gives 5; an `INT32` value −9 reads back as −9; a 16-bit
value through either native getter asserts. -/
theorem c4_widening_witness :
    getArgValueInt lp64 (msgWith ⟨Ty.UINTN, 0, 2, ['%', 'u'], ArgUnion.ui 5⟩)
      (0 : Nat) = .ok 5 ∧
    getArgValueInt lp64 (msgWith ⟨Ty.INT32, 0, 3, ['%', 'l', 'd'], ArgUnion.i32 (-9)⟩)
      (0 : Nat) = .ok (-9) ∧
    getArgValueInt lp64 (msgWith ⟨Ty.INT16, 0, 3, ['%', 'h', 'd'], ArgUnion.i 7⟩)
      (0 : Nat) = .assertFail ∧
    getArgValueUInt lp64 (msgWith ⟨Ty.UINT16, 0, 3, ['%', 'h', 'u'], ArgUnion.i 7⟩)
      (0 : Nat) = .assertFail := by
  refine ⟨?_, ?_, ?_, ?_⟩
  · exact (c4_widening lp64 (msgWith ⟨Ty.UINTN, 0, 2, ['%', 'u'], ArgUnion.ui 5⟩) 0
      ⟨Ty.UINTN, 0, 2, ['%', 'u'], ArgUnion.ui 5⟩ rfl (by decide)).1 5 rfl rfl (by decide)
  · exact (c4_widening lp64 (msgWith ⟨Ty.INT32, 0, 3, ['%', 'l', 'd'], ArgUnion.i32 (-9)⟩) 0
      ⟨Ty.INT32, 0, 3, ['%', 'l', 'd'], ArgUnion.i32 (-9)⟩ rfl (by decide)).2.1 (-9) rfl rfl
      (by decide) (by norm_num) (by norm_num)
  · exact (c4_widening lp64 (msgWith ⟨Ty.INT16, 0, 3, ['%', 'h', 'd'], ArgUnion.i 7⟩) 0
      ⟨Ty.INT16, 0, 3, ['%', 'h', 'd'], ArgUnion.i 7⟩ rfl (by decide)).2.2.1 7 rfl rfl (by decide)
  · exact (c4_widening lp64 (msgWith ⟨Ty.UINT16, 0, 3, ['%', 'h', 'u'], ArgUnion.i 7⟩) 0
      ⟨Ty.UINT16, 0, 3, ['%', 'h', 'u'], ArgUnion.i 7⟩ rfl (by decide)).2.2.2 7 rfl rfl (by decide)
